import Mathlib

/-!
Verification of the pinmap pin-mapping table generator.

The development shallowly embeds the program's two modules:

* `db` — decoding the part descriptor and the GPIO descriptor (XML trees)
  into the `PartInfo`/`PinInfo`/`SignalInfo`/`SignalMap` model, including the
  first-signal GPIO-mode inference of `load_gpios`;
* `table` — the signal filter (substitution, factorization, exclusion) and
  the two row renderers `write_pin_out_af` / `write_pin_out_remap`.

XML documents are modelled as ordinary trees (`Xml`); file reading and gzip
decompression are external collaborators and are modelled as lookup
functions from names to decoded documents.  The fixed built-in regexes of
`SignalFilter::new` are translated rule by rule into executable matching
functions with the regex crate's leftmost-first semantics.  The iteration
order of the hash map used by `factorize` is not specified by the source
language's library, so renderers take an explicit order-choice function
(`OrdFn`); a run of the program corresponds to some permutation-choosing
function.  User-supplied exclusion fragments are arbitrary regular
expressions, modelled semantically as predicates on the character lists the
fragment matches (`Frag`).

Strings are processed as `List Char` (`Chars`) inside the filter pipeline,
matching the byte-level view of the Rust code on the ASCII signal names.
-/

namespace Pinmap

abbrev Chars := List Char

/-- The characters of the regex class `[0-9]`. -/
def digitChars : Chars := ['0', '1', '2', '3', '4', '5', '6', '7', '8', '9']

/-- The regex class `\d` (ASCII digits, as used by the descriptor database). -/
def isDig (c : Char) : Bool := digitChars.contains c

/-- The characters of the regex class `[0-9_]`. -/
def classChars : Chars := digitChars ++ ['_']

/-- The regex class `[0-9_]` used after every substitution prefix and in the
compiled exclusion patterns. -/
def isDigU (c : Char) : Bool := classChars.contains c

/-- Strip a literal off the front of a character list (`None` if it is not a
prefix). -/
def dropLit : Chars → Chars → Option Chars
  | [], s => some s
  | _ :: _, [] => none
  | l :: ls, c :: cs => if l == c then dropLit ls cs else none

/-!
### Substitution rules of `SignalFilter::new`

Each built-in substitution regex has the shape `^LITS([0-9_])` where `LITS`
offers finitely many literal alternatives (spelling out `(?:HR|LP)?`, `S?`
and the like in the regex crate's leftmost-first preference order) and the
replacement `$1$2` keeps capture group 1 (a prefix of the matched literal)
and the class character.  `Regex::replace` rewrites the leftmost (here:
anchored) match and leaves a non-matching string unchanged.
-/

/-- One alternative of an anchored substitution: if `lit` starts the string
and is followed by a `[0-9_]` character, replace `lit` by its capture `g1`. -/
def subAlt (lit g1 : Chars) (s : Chars) : Option Chars :=
  match dropLit lit s with
  | some (c :: r) => if isDigU c then some (g1 ++ c :: r) else none
  | _ => none

/-- Apply the first alternative that matches, as the backtracking regex
engine would; otherwise leave the string unchanged. -/
def subAlts (alts : List (Chars × Chars)) (s : Chars) : Chars :=
  match alts.findSome? (fun a => subAlt a.1 a.2 s) with
  | some t => t
  | none => s

/-- `^((?:HR|LP)?T)IM([0-9_])` replaced by `$1$2`. -/
def sub1 (s : Chars) : Chars :=
  subAlts [(['H', 'R', 'T', 'I', 'M'], ['H', 'R', 'T']),
           (['L', 'P', 'T', 'I', 'M'], ['L', 'P', 'T']),
           (['T', 'I', 'M'], ['T'])] s

/-- `^((?:LP)?U)S?ART([0-9_])` replaced by `$1$2`. -/
def sub2 (s : Chars) : Chars :=
  subAlts [(['L', 'P', 'U', 'S', 'A', 'R', 'T'], ['L', 'P', 'U']),
           (['L', 'P', 'U', 'A', 'R', 'T'], ['L', 'P', 'U']),
           (['U', 'S', 'A', 'R', 'T'], ['U']),
           (['U', 'A', 'R', 'T'], ['U'])] s

/-- `^(D)FSDM([0-9_])` replaced by `$1$2`. -/
def sub3 (s : Chars) : Chars :=
  subAlts [(['D', 'F', 'S', 'D', 'M'], ['D'])] s

/-- `^(F)S?MC([0-9_])` replaced by `$1$2`. -/
def sub4 (s : Chars) : Chars :=
  subAlts [(['F', 'S', 'M', 'C'], ['F']),
           (['F', 'M', 'C'], ['F'])] s

/-- `^(Q)UADSPI(?:_BK)?([0-9_])` replaced by `$1$2`. -/
def sub5 (s : Chars) : Chars :=
  subAlts [(['Q', 'U', 'A', 'D', 'S', 'P', 'I', '_', 'B', 'K'], ['Q']),
           (['Q', 'U', 'A', 'D', 'S', 'P', 'I'], ['Q'])] s

/-- `^(S)PI([0-9_])` replaced by `$1$2`. -/
def sub6 (s : Chars) : Chars :=
  subAlts [(['S', 'P', 'I'], ['S'])] s

/-- `^(SW)PMI([0-9_])` replaced by `$1$2`. -/
def sub7 (s : Chars) : Chars :=
  subAlts [(['S', 'W', 'P', 'M', 'I'], ['S', 'W'])] s

/-- `^I2(S)([0-9_])` replaced by `$1$2`. -/
def sub8 (s : Chars) : Chars :=
  subAlts [(['I', '2', 'S'], ['S'])] s

/-- `^(SD)MMC([0-9_])` replaced by `$1$2`. -/
def sub9 (s : Chars) : Chars :=
  subAlts [(['S', 'D', 'M', 'M', 'C'], ['S', 'D'])] s

/-- `^(SP)DIFRX([0-9_])` replaced by `$1$2`. -/
def sub10 (s : Chars) : Chars :=
  subAlts [(['S', 'P', 'D', 'I', 'F', 'R', 'X'], ['S', 'P'])] s

/-- `^FD(C)AN([0-9_])` replaced by `$1$2`. -/
def sub11 (s : Chars) : Chars :=
  subAlts [(['F', 'D', 'C', 'A', 'N'], ['C'])] s

/-- `^USB_OTG_([FH]S)([0-9_])` replaced by `$1$2`. -/
def sub12 (s : Chars) : Chars :=
  subAlts [(['U', 'S', 'B', '_', 'O', 'T', 'G', '_', 'F', 'S'], ['F', 'S']),
           (['U', 'S', 'B', '_', 'O', 'T', 'G', '_', 'H', 'S'], ['H', 'S'])] s

/-- `^(T\d_B)KIN([0-9_])` replaced by `$1$2` (the capture contains a digit,
so this rule is matched structurally rather than via `subAlts`). -/
def sub13 (s : Chars) : Chars :=
  match s with
  | 'T' :: d :: '_' :: 'B' :: 'K' :: 'I' :: 'N' :: c :: r =>
    if isDig d && isDigU c then 'T' :: d :: '_' :: 'B' :: c :: r
    else 'T' :: d :: '_' :: 'B' :: 'K' :: 'I' :: 'N' :: c :: r
  | t => t

/-- The first twelve substitution rules (all of `subAlts` shape). -/
def subs12 : List (Chars → Chars) :=
  [sub1, sub2, sub3, sub4, sub5, sub6, sub7, sub8, sub9, sub10, sub11, sub12]

/-- The ordered substitution rule list of `SignalFilter::new`. -/
def subsRules : List (Chars → Chars) := subs12 ++ [sub13]

/-- `self.subs.iter().fold(s, |s, re| re.replace(&s, "$1$2"))`: one pass of
the substitution list, each rule re-scanning the already-substituted
string. -/
def subsAll (s : Chars) : Chars := subsRules.foldl (fun t f => f t) s

example : subsAll "USART2_TX".data = "U2_TX".data := by decide
example : subsAll "HRTIM1_CHA1".data = "HRT1_CHA1".data := by decide
example : subsAll "TIM1_BKIN2".data = "T1_B2".data := by decide
example : subsAll "QUADSPI_CLK".data = "Q_CLK".data := by decide
example : subsAll "I2S2_SD".data = "S2_SD".data := by decide
example : subsAll "ADC1_IN5".data = "ADC1_IN5".data := by decide
example : subsAll "USB_OTG_FS_VBUS".data = "FS_VBUS".data := by decide

/-!
### Factorization rules of `SignalFilter::new` and `factorize`

Each factorization regex is unanchored; `Regex::captures` finds the match
with the leftmost start (scanning positions left to right) and within a
position follows the engine's preference order (alternatives and `?` prefer
presence, `\d+`/`.+` are greedy).  `factorize` keys each matching string by
the text outside capture group 1 — `(i[..g.start()], i[g.end()..])` — and
joins the collected group texts with the rule's separator.
-/

/-- A capture attempt at one position: `some (m, g)` means the pattern
matches here, `m` being the matched text before capture group 1 and `g` the
group text (the rest of the string after the group need not be part of the
match for the keying, which uses the whole remainder). -/
abbrev CaptAt := Chars → Option (Chars × Chars)

/-- Leftmost search: try `att` at every position left to right; on success
return `(prefix up to the group, group, remainder after the group)`. -/
def scanCapt (att : CaptAt) : Chars → Option (Chars × Chars × Chars) :=
  go []
where
  go (pre : Chars) (t : Chars) : Option (Chars × Chars × Chars) :=
    match att t with
    | some (m, g) => some (pre ++ m, g, t.drop (m.length + g.length))
    | none =>
      match t with
      | [] => none
      | c :: t' => go (pre ++ [c]) t'

/-- `_COMP(\d+)` tail of the first factorization rule. -/
def att1comp : Chars → Option (Chars × Chars)
  | '_' :: 'C' :: 'O' :: 'M' :: 'P' :: r =>
    let g := r.takeWhile isDig
    if g.isEmpty then none else some (['_', 'C', 'O', 'M', 'P'], g)
  | _ => none

/-- `\d?_COMP(\d+)`: prefer consuming a digit, fall back without it. -/
def att1tail (rest : Chars) : Option (Chars × Chars) :=
  match rest with
  | e :: r2 =>
    if isDig e then
      match att1comp r2 with
      | some (m, g) => some (e :: m, g)
      | none => att1comp rest
    else att1comp rest
  | [] => none

/-- `T\d_B\d?_COMP(\d+)` matched at the start of the string. -/
def att1 : CaptAt
  | 'T' :: d :: '_' :: 'B' :: rest =>
    if isDig d then
      match att1tail rest with
      | some (m, g) => some ('T' :: d :: '_' :: 'B' :: m, g)
      | none => none
    else none
  | _ => none

/-- `[NP]?\d+` as a match test (used after the group of rule 2). -/
def npDigits (r : Chars) : Bool :=
  match r with
  | c :: r' =>
    (((c == 'N' || c == 'P') && !(r'.takeWhile isDig).isEmpty) || isDig c)
  | [] => false

/-- `ADC(\d)_IN[NP]?\d+` matched at the start of the string; the group is
the single digit after `ADC`. -/
def att2 : CaptAt
  | 'A' :: 'D' :: 'C' :: d :: '_' :: 'I' :: 'N' :: r =>
    if isDig d && npDigits r then some (['A', 'D', 'C'], [d]) else none
  | _ => none

/-- `ADC\d+_IN([NP]?\d+)` matched at the start of the string; the group is
the (optionally `N`/`P`-prefixed) input number. -/
def att3 : CaptAt
  | 'A' :: 'D' :: 'C' :: r =>
    let ds := r.takeWhile isDig
    if ds.isEmpty then none
    else
      match r.drop ds.length with
      | '_' :: 'I' :: 'N' :: r2 =>
        match r2 with
        | c :: r3 =>
          if c == 'N' || c == 'P' then
            let gs := r3.takeWhile isDig
            if gs.isEmpty then none
            else some ('A' :: 'D' :: 'C' :: ds ++ ['_', 'I', 'N'], c :: gs)
          else
            let gs := r2.takeWhile isDig
            if gs.isEmpty then none
            else some ('A' :: 'D' :: 'C' :: ds ++ ['_', 'I', 'N'], gs)
        | [] => none
      | _ => none
  | _ => none

/-- `[SUT]\d_(.+)` matched at the start of the string; the greedy group is
the whole remainder. -/
def att4 : CaptAt
  | c :: d :: '_' :: r =>
    if (c == 'S' || c == 'U' || c == 'T') && isDig d && !r.isEmpty then
      some ([c, d, '_'], r)
    else none
  | _ => none

/-- A factorization group key: the text before and after capture group 1. -/
abbrev GroupKey := Chars × Chars

/-- The `facts: HashMap<_, Vec<_>>` accumulator, kept in key insertion
order. -/
abbrev Groups := List (GroupKey × List Chars)

/-- `facts.entry(termout).or_insert(Vec::new()).push(term)`. -/
def addGroup (gs : Groups) (k : GroupKey) (t : Chars) : Groups :=
  if gs.any (fun p => p.1 == k) then
    gs.map (fun p => if p.1 == k then (p.1, p.2 ++ [t]) else p)
  else gs ++ [(k, [t])]

/-- The loop of `factorize`: split the input into the factorization map and
the non-matching `others`, both in encounter order. -/
def splitFacts (capt : Chars → Option (Chars × Chars × Chars)) (it : List Chars) :
    Groups × List Chars :=
  it.foldl
    (fun acc i =>
      match capt i with
      | some (pre, g, suf) => (addGroup acc.1 (pre, suf) g, acc.2)
      | none => (acc.1, acc.2 ++ [i]))
    ([], [])

/-- An order-choice function standing for the iteration order of the Rust
`HashMap` in `factorize`. -/
abbrev OrdFn := Groups → Groups

/-- A run of the program iterates each `HashMap` in some order, i.e. some
permutation of the entries. -/
def PermFn (f : OrdFn) : Prop := ∀ g : Groups, (f g).Perm g

/-- The identity order choice (one possible hash-map iteration order). -/
def ordId : OrdFn := fun g => g

/-- The reversed order choice (another possible iteration order). -/
def ordRev : OrdFn := fun g => g.reverse

/-- `join(sep)` on character lists. -/
def joinSep (sep : Chars) : List Chars → Chars
  | [] => []
  | [t] => t
  | t :: ts => t ++ sep ++ joinSep sep ts

/-- `factorize`: group the matching entries by their outer text, emit each
group as `prefix ++ joined terms ++ suffix` (in the hash map's iteration
order `ord`), then the non-matching entries. -/
def factorize (ord : OrdFn) (capt : Chars → Option (Chars × Chars × Chars))
    (sep : Chars) (it : List Chars) : List Chars :=
  let fo := splitFacts capt it
  (ord fo.1).map (fun kt => kt.1.1 ++ joinSep sep kt.2 ++ kt.1.2) ++ fo.2

/-- The (capture function, separator) pairs of `facts_sep`. -/
def factsList : List ((Chars → Option (Chars × Chars × Chars)) × Chars) :=
  [(scanCapt att1, []), (scanCapt att2, []), (scanCapt att3, []),
   (scanCapt att4, ['/'])]

/-!
### Exclusion set and `signal_filter`

`SignalFilter::new` turns each user-supplied fragment `p` into the regex
`^(?:p)[0-9_]` and compiles all of them into one `RegexSet`; a fragment is
modelled semantically by the set of character lists its (un-anchored
wrapping, fully anchored here) regex matches, as a Boolean predicate.
-/

/-- A compiled exclusion fragment: `p u = true` iff the fragment's regex
matches exactly the text `u`. -/
abbrev Frag := Chars → Bool

/-- `^(?:p)[0-9_]` as a match test on `s`: some prefix of `s` is matched by
`p` and is followed by a `[0-9_]` character. -/
def excludeMatchOne (p : Frag) (s : Chars) : Bool :=
  (List.range s.length).any fun n =>
    match s.drop n with
    | c :: _ => p (s.take n) && isDigU c
    | [] => false

/-- `RegexSet::is_match`: some alternative of the exclusion set matches. -/
def excludesMatch (ps : List Frag) (s : Chars) : Bool :=
  ps.any (fun p => excludeMatchOne p s)

/-- `SignalFilter::signal_filter`: per column, apply the substitution pass
to every name, then the four factorization rules in order, then drop the
names matched by the exclusion set. -/
def signal_filter (ord : OrdFn) (ps : List Frag) (_name _position : String)
    (cols : List (List Chars)) : List (List Chars) :=
  cols.map fun signals =>
    let s1 := signals.map subsAll
    let s2 := factsList.foldl (fun acc fs => factorize ord fs.1 fs.2 acc) s1
    s2.filter (fun s => !excludesMatch ps s)

example :
    signal_filter ordId [] "PA0" "0" [["ADC1_IN1".data, "ADC1_IN2".data]] =
      [["ADC1_IN12".data]] := by decide
example :
    signal_filter ordRev [] "PA0" "0" [["ADC1_IN1".data, "ADC1_IN2".data]] =
      [["ADC1_IN21".data]] := by decide
example :
    signal_filter ordId [] "PA0" "0" [["USART2_TX".data]] = [["U2_TX".data]] := by
  decide
example :
    signal_filter ordId [] "PA0" "0"
      [["U2_TX".data, "U2_RX".data, "SPI1_MOSI".data]] =
      [["U2_TX/RX".data, "S1_MOSI".data]] := by decide
example :
    signal_filter ordId [fun l => l = "ADC".data] "PA0" "0"
      [["ADC1_IN1".data, "SPI1_MOSI".data]] = [["S1_MOSI".data]] := by decide

/-!
### The part model (`db.rs` data types)
-/

/-- Information on how to map a signal to a pin (`SignalMap`). -/
inductive SignalMap where
  /-- Alternate function, with its AF number. -/
  | AF (n : Nat)
  /-- Additional function, no AF setup to do. -/
  | AddF
  /-- Remap, used on older parts without the AF system. -/
  | Remap (remaps : List Nat)
deriving DecidableEq, Repr

/-- Mode of GPIO mapping (`GpioMode`). -/
inductive GpioMode where
  | AF
  | Remap
deriving DecidableEq, Repr

/-- Information about one signal (`SignalInfo`). -/
structure SignalInfo where
  name : String
  map : SignalMap
deriving DecidableEq, Repr

/-- Information about one pin (`PinInfo`). -/
structure PinInfo where
  name : String
  position : String
  signals : List SignalInfo
deriving DecidableEq, Repr

/-- Information about a part (`PartInfo`). -/
structure PartInfo where
  part : String
  line : String
  package : String
  gpio_mode : GpioMode
  pins : List PinInfo
deriving DecidableEq, Repr

/-!
### The AF renderer (`write_pin_out_af`)

The renderer allocates `[Vec<_>; 17]` buckets per pin and pushes each
signal name at `signals[index]` where `index` is the raw AF number (or 16
for additional functions).  Rust panics on an out-of-range index and on a
`Remap` map (`panic!` in the source); both aborts are modelled as `.error`
outcomes distinct from ordinary `Result` errors in message only.
-/

/-- One row of the output table. -/
abbrev Row := List String

instance {ε α : Type} [DecidableEq ε] [DecidableEq α] : DecidableEq (Except ε α)
  | Except.ok a, Except.ok b =>
    if h : a = b then isTrue (by rw [h]) else isFalse (by intro he; cases he; exact h rfl)
  | Except.error a, Except.error b =>
    if h : a = b then isTrue (by rw [h]) else isFalse (by intro he; cases he; exact h rfl)
  | Except.ok _, Except.error _ => isFalse (by intro he; cases he)
  | Except.error _, Except.ok _ => isFalse (by intro he; cases he)

/-- Propagate the first error while mapping, as `collect::<Result<_>>` and
the renderers' row loops do. -/
def mapExcept {α β : Type} (f : α → Except String β) : List α → Except String (List β)
  | [] => Except.ok []
  | a :: l =>
    match f a with
    | Except.error e => Except.error e
    | Except.ok b =>
      match mapExcept f l with
      | Except.error e => Except.error e
      | Except.ok bs => Except.ok (b :: bs)

/-- One iteration of the bucketing loop of `write_pin_out_af`; `.error`
models the two panics (a `Remap` map, an out-of-range index). -/
def bucketStep (buckets : List (List Chars)) (signal : SignalInfo) :
    Except String (List (List Chars)) :=
  match (match signal.map with
         | SignalMap.AF af => Except.ok af
         | SignalMap.AddF => Except.ok (buckets.length - 1)
         | SignalMap.Remap _ => Except.error "Bad signal map") with
  | Except.error e => Except.error e
  | Except.ok index =>
    if index < buckets.length then
      Except.ok (buckets.set index ((buckets.getD index []) ++ [signal.name.data]))
    else Except.error "index out of bounds"

/-- The bucketing loop over a pin's signals. -/
def bucketGo : List SignalInfo → List (List Chars) → Except String (List (List Chars))
  | [], buckets => Except.ok buckets
  | signal :: rest, buckets =>
    match bucketStep buckets signal with
    | Except.error e => Except.error e
    | Except.ok buckets' => bucketGo rest buckets'

/-- Bucket a pin's signals into the 17 AF columns (`let mut signals:
[Vec<_>; 17]` and the push loop). -/
def bucketAF (signals : List SignalInfo) : Except String (List (List Chars)) :=
  bucketGo signals (List.replicate 17 [])

/-- `i.join(" ")` on one column. -/
def joinCell (names : List Chars) : String :=
  String.intercalate " " (names.map (fun l => String.mk l))

/-- The loop body of `write_pin_out_af`: one row per pin — name, position,
then the 17 filtered, space-joined columns. -/
def afRow (ord : OrdFn) (ps : List Frag) (pin : PinInfo) : Except String Row :=
  match bucketAF pin.signals with
  | Except.error e => Except.error e
  | Except.ok buckets =>
    let cols := signal_filter ord ps pin.name pin.position buckets
    Except.ok ([pin.name, pin.position] ++ cols.map joinCell)

/-- `write_pin_out_af`: the AF-mode table, one row per pin. -/
def write_pin_out_af (ord : OrdFn) (ps : List Frag) (part_info : PartInfo) :
    Except String (List Row) :=
  mapExcept (afRow ord ps) part_info.pins

/-!
### The Remap renderer (`write_pin_out_remap`)
-/

/-- The per-signal rendering of the Remap layout: a `Remap` map is shown as
`name(i,j,...)` with the remap indices sorted ascending and comma-joined;
any other map is shown as the bare name. -/
def renderRemapName (signal : SignalInfo) : String :=
  match signal.map with
  | SignalMap.Remap remaps =>
    signal.name ++ "(" ++
      String.intercalate ","
        ((remaps.insertionSort (· ≤ ·)).map (fun x => toString x)) ++ ")"
  | _ => signal.name

/-- `signal.split('_').next().unwrap()`: the text before the first
underscore. -/
def categoryOf (s : Chars) : Chars := s.takeWhile (fun c => !(c == '_'))

/-- Insert-if-absent collection of the category set (`HashSet::insert`);
only its sorted form is observable. -/
def insertCat (cats : List Chars) (c : Chars) : List Chars :=
  if cats.contains c then cats else cats ++ [c]

/-- Byte-lexicographic order on ASCII names, as Rust's `String` ordering
sorts the category columns. -/
def charsLe (a b : Chars) : Bool :=
  match a, b with
  | [], _ => true
  | _ :: _, [] => false
  | x :: xs, y :: ys => if x == y then charsLe xs ys else decide (x < y)

/-- The per-pin grouping of surviving names by category, in encounter
order. -/
def groupCats (signals : List Chars) : List (GroupKey × List Chars) :=
  signals.foldl (fun acc signal => addGroup acc (categoryOf signal, []) signal) []

/-- `write_pin_out_remap`: render remap suffixes, filter the single
pseudo-column, then emit one row per pin under the sorted union of the
category columns. -/
def write_pin_out_remap (ord : OrdFn) (ps : List Frag) (part_info : PartInfo) :
    Except String (List Row) :=
  let lines := part_info.pins.map fun pin =>
    let signals := pin.signals.map (fun s => (renderRemapName s).data)
    let signals :=
      (signal_filter ord ps pin.name pin.position [signals]).headD []
    (pin.name, pin.position, groupCats signals)
  let allcats :=
    (lines.foldl
        (fun acc l => l.2.2.foldl (fun acc kt => insertCat acc kt.1.1) acc)
        []).insertionSort (fun a b => charsLe a b = true)
  Except.ok <| lines.map fun l =>
    [l.1, l.2.1] ++ allcats.map fun cat =>
      match (l.2.2.find? (fun kt => kt.1.1 == cat)) with
      | some kt => joinCell kt.2
      | none => ""

/-- `write_pin_out`: dispatch on the part's GPIO mapping mode. -/
def write_pin_out (ord : OrdFn) (ps : List Frag) (part_info : PartInfo) :
    Except String (List Row) :=
  match part_info.gpio_mode with
  | GpioMode.AF => write_pin_out_af ord ps part_info
  | GpioMode.Remap => write_pin_out_remap ord ps part_info

example :
    write_pin_out ordId []
      { part := "P", line := "L", package := "K", gpio_mode := GpioMode.AF,
        pins := [{ name := "PA0", position := "0",
                   signals := [{ name := "USART2_TX", map := SignalMap.AF 7 }] }] } =
      Except.ok
        [["PA0", "0", "", "", "", "", "", "", "", "U2_TX", "", "", "", "", "", "",
          "", "", ""]] := by decide

example :
    write_pin_out ordId []
      { part := "P", line := "L", package := "K", gpio_mode := GpioMode.Remap,
        pins := [{ name := "PB2", position := "2",
                   signals := [{ name := "SPI1_MOSI",
                                 map := SignalMap.Remap [2, 0] }] }] } =
      Except.ok [["PB2", "2", "S1_MOSI(0,2)"]] := by decide

/-!
### The XML document model and the decoders of `db.rs`

The XML library is an external collaborator; a decoded document is a tree
of elements with a tag, attributes, optional text and child elements, in
document order.  File reading plus gzip decompression of a named resource
is likewise external and modelled as a lookup returning the decoded root
element or an I/O error.
-/

/-- An XML element as the decoders consume it. -/
inductive Xml where
  | node (tag : String) (attrs : List (String × String)) (text : Option String)
      (children : List Xml)

/-- The element's tag. -/
def Xml.tag : Xml → String
  | Xml.node t _ _ _ => t

/-- The element's attribute list. -/
def Xml.attrs : Xml → List (String × String)
  | Xml.node _ a _ _ => a

/-- The element's text content (`Node::text`). -/
def Xml.text : Xml → Option String
  | Xml.node _ _ tx _ => tx

/-- The element's child elements. -/
def Xml.children : Xml → List Xml
  | Xml.node _ _ _ cs => cs

/-- `node.attribute(name)`: the first attribute with this name. -/
def Xml.attr (n : Xml) (name : String) : Option String :=
  (n.attrs.find? (fun a => a.1 == name)).map (fun a => a.2)

mutual

/-- `node.descendants()`: the node itself and all descendants, in document
order. -/
def descendants : Xml → List Xml
  | Xml.node t a tx cs => Xml.node t a tx cs :: descendantsList cs

/-- Descendants of a forest, in document order. -/
def descendantsList : List Xml → List Xml
  | [] => []
  | c :: cs => descendants c ++ descendantsList cs

end

/-- `attribute_or_error`: fetch an attribute or report the element tag and
the missing attribute name. -/
def attribute_or_error (n : Xml) (name : String) : Except String String :=
  match n.attr name with
  | some v => Except.ok v
  | none => Except.error (n.tag ++ " missing a " ++ name ++ " attribute")

/-- `str::parse::<u8>`: an optional leading `+`, then one or more ASCII
digits, value below 256. -/
def parseU8 (s : Chars) : Option Nat :=
  let ds := match s with
    | '+' :: r => r
    | _ => s
  if ds.isEmpty || !ds.all isDig then none
  else
    let n := ds.foldl (fun a c => a * 10 + (c.toNat - 48)) 0
    if n < 256 then some n else none

/-- The literal prefix `GPIO_AF` of an alternate-function value. -/
def kGpioAf : Chars := ['G', 'P', 'I', 'O', '_', 'A', 'F']

/-- `str::find('_')`: the index of the first underscore. -/
def idxOfUnd : Chars → Option Nat
  | [] => none
  | c :: r => if c == '_' then some 0 else (idxOfUnd r).map (fun i => i + 1)

/-- The first `PossibleValue` descendant of a signal element. -/
def firstPV (signal : Xml) : Option Xml :=
  (descendants signal).find? (fun n => n.tag == "PossibleValue")

/-- `parse_af`: find the first `PossibleValue` descendant, require its text
to start with `GPIO_AF`, and parse the text between the prefix and the next
underscore as the AF number. -/
def parse_af (signal : Xml) : Except String SignalMap :=
  match firstPV signal with
  | none => Except.error "no AF found"
  | some pv =>
    match pv.text with
    | none => Except.error "no AF text"
    | some af =>
      match dropLit kGpioAf af.data with
      | none => Except.error "not an AF"
      | some rest =>
        match idxOfUnd rest with
        | none => Except.error "not an AF"
        | some i =>
          match parseU8 (rest.take i) with
          | none => Except.error "invalid digit found in string"
          | some n => Except.ok (SignalMap.AF n)

/-- The literal marker `REMAP` inside a remap block name. -/
def kRemap : Chars := ['R', 'E', 'M', 'A', 'P']

/-- `name.rfind("REMAP")`: the start of the last occurrence of the
marker. -/
def rfindRemap (s : Chars) : Option Nat :=
  ((List.range (s.length + 1)).filterMap
      (fun i => if kRemap.isPrefixOf (s.drop i) then some i else none)).getLast?

/-- `parse_remap`: the remap number is the text after the last `REMAP`
marker of the block's name. -/
def parse_remap (n : Xml) : Except String Nat :=
  match attribute_or_error n "Name" with
  | Except.error e => Except.error e
  | Except.ok name =>
    match rfindRemap name.data with
    | none => Except.error "missing REMAP"
    | some i =>
      match parseU8 (name.data.drop (i + kRemap.length)) with
      | none => Except.error "invalid digit found in string"
      | some remap => Except.ok remap

/-- `parse_remaps`: collect the remap numbers of all `RemapBlock`
children. -/
def parse_remaps (signal : Xml) : Except String SignalMap :=
  match mapExcept parse_remap (signal.children.filter (fun n => n.tag == "RemapBlock")) with
  | Except.error e => Except.error e
  | Except.ok remaps => Except.ok (SignalMap.Remap remaps)

/-- The per-pin signal-name-to-map table. -/
abbrev SigsMap := List (String × SignalMap)

/-- The `GpiosInfo` table: pin name to signal table. -/
abbrev GpiosInfo := List (String × SigsMap)

/-- `HashMap::insert` on the association-list model: replace the value of
an existing key, append a new key. -/
def insertA {α : Type} (l : List (String × α)) (k : String) (v : α) :
    List (String × α) :=
  if l.any (fun p => p.1 == k) then
    l.map (fun p => if p.1 == k then (p.1, v) else p)
  else l ++ [(k, v)]

/-- `HashMap::get` on the association-list model. -/
def lookupA {α : Type} (l : List (String × α)) (k : String) : Option α :=
  (l.find? (fun p => p.1 == k)).map (fun p => p.2)

/-- The mode the first signal seen fixes: `Remap` when the signal has at
least one `RemapBlock` child, `AF` otherwise. -/
def modeOfSignal (signal : Xml) : GpioMode :=
  if ((signal.children.find? (fun n => n.tag == "RemapBlock")).isSome) then
    GpioMode.Remap
  else GpioMode.AF

/-- Decode one signal according to the fixed mode. -/
def decodeSignal (m : GpioMode) (signal : Xml) : Except String SignalMap :=
  match m with
  | GpioMode.AF => parse_af signal
  | GpioMode.Remap => parse_remaps signal

/-- The inner loop of `load_gpios` over one pin's `PinSignal` children: on
the very first signal seen overall the mode is fixed by the presence of a
`RemapBlock` child (`mode.getD (modeOfSignal signal)` models setting the
`Option` once and then unwrapping it); every signal is decoded according to
the fixed mode and inserted under its `Name`. -/
def load_signals : Option GpioMode → List Xml → SigsMap →
    Except String (Option GpioMode × SigsMap)
  | mode, [], acc => Except.ok (mode, acc)
  | mode, signal :: rest, acc =>
    match decodeSignal (mode.getD (modeOfSignal signal)) signal with
    | Except.error e => Except.error e
    | Except.ok map =>
      match attribute_or_error signal "Name" with
      | Except.error e => Except.error e
      | Except.ok signal_name =>
        load_signals (some (mode.getD (modeOfSignal signal))) rest
          (insertA acc signal_name map)

/-- The outer loop of `load_gpios` over the `GPIO_Pin` elements. -/
def load_pins : Option GpioMode → List Xml → GpiosInfo →
    Except String (Option GpioMode × GpiosInfo)
  | mode, [], gpios => Except.ok (mode, gpios)
  | mode, pin :: rest, gpios =>
    match attribute_or_error pin "Name" with
    | Except.error e => Except.error e
    | Except.ok pin_name =>
      match load_signals mode (pin.children.filter (fun n => n.tag == "PinSignal")) [] with
      | Except.error e => Except.error e
      | Except.ok (mode', signals_map) =>
        load_pins mode' rest (insertA gpios pin_name signals_map)

/-- `load_gpios` on a decoded GPIO descriptor root: the mapping mode (AF
when the document has no signal at all) and the pin/signal table. -/
def load_gpios (doc_root : Xml) : Except String (GpioMode × GpiosInfo) :=
  match load_pins none (doc_root.children.filter (fun n => n.tag == "GPIO_Pin")) [] with
  | Except.error e => Except.error e
  | Except.ok (mode, gpios) => Except.ok (mode.getD GpioMode.AF, gpios)

/-- `parse_signal` of `PartInfo::new`: a signal absent from the GPIO
descriptor's table defaults to an additional function. -/
def parse_signal (signals_map : Option SigsMap) (s : Xml) : Except String SignalInfo :=
  match attribute_or_error s "Name" with
  | Except.error e => Except.error e
  | Except.ok name =>
    let map :=
      match signals_map with
      | none => SignalMap.AddF
      | some sm => (lookupA sm name).getD SignalMap.AddF
    Except.ok { name := name, map := map }

/-- `parse_pin` of `PartInfo::new`: a pin's `Signal` children, the `GPIO`
signal excepted, resolved against the GPIO descriptor table. -/
def parse_pin (gpios_info : GpiosInfo) (n : Xml) : Except String PinInfo :=
  match attribute_or_error n "Name" with
  | Except.error e => Except.error e
  | Except.ok name =>
    match attribute_or_error n "Position" with
    | Except.error e => Except.error e
    | Except.ok position =>
      match mapExcept (fun s => parse_signal (lookupA gpios_info name) s)
          (n.children.filter
            (fun s => s.tag == "Signal" && !(s.attr "Name" == some "GPIO"))) with
      | Except.error e => Except.error e
      | Except.ok signals =>
        Except.ok { name := name, position := position, signals := signals }

/-- `PartInfo::new` on decoded documents: `mcu` models reading and decoding
`mcu/<part>.xml.gz`, `gpioDb` models reading and decoding
`mcu/IP/GPIO-<version>_Modes.xml.gz`. -/
def PartInfo.new (mcu : String → Except String Xml)
    (gpioDb : String → Except String Xml) (part : String) :
    Except String PartInfo :=
  match mcu part with
  | Except.error e => Except.error e
  | Except.ok doc_root =>
    match attribute_or_error doc_root "Line" with
    | Except.error e => Except.error e
    | Except.ok line =>
      match attribute_or_error doc_root "Package" with
      | Except.error e => Except.error e
      | Except.ok package =>
        match doc_root.children.find?
            (fun n => n.tag == "IP" && n.attr "Name" == some "GPIO") with
        | none => Except.error "missing GPIO"
        | some gpio_ip =>
          match attribute_or_error gpio_ip "Version" with
          | Except.error e => Except.error e
          | Except.ok gpio_version =>
            match gpioDb gpio_version with
            | Except.error e => Except.error e
            | Except.ok gdoc =>
              match load_gpios gdoc with
              | Except.error e => Except.error e
              | Except.ok mg =>
                match mapExcept (parse_pin mg.2)
                    (doc_root.children.filter (fun n => n.tag == "Pin")) with
                | Except.error e => Except.error e
                | Except.ok pins =>
                  Except.ok { part := part, line := line, package := package,
                              gpio_mode := mg.1, pins := pins }

/-- The `Table` subcommand of `main`: load the part, then compile the
filter, then render.  A user exclusion fragment arrives together with its
compilation outcome (`Except.error` for a malformed regex). -/
def table_command (ord : OrdFn) (mcu : String → Except String Xml)
    (gpioDb : String → Except String Xml)
    (exclude : List (Except String Frag)) (part : String) :
    Except String (List Row) :=
  match PartInfo.new mcu gpioDb part with
  | Except.error e => Except.error e
  | Except.ok part_info =>
    match mapExcept (fun c => c) exclude with
    | Except.error e => Except.error e
    | Except.ok filter => write_pin_out ord filter part_info

/-!
### Concrete descriptor documents for the scenario claims
-/

/-- A `PossibleValue` descendant holding an AF value text, nested as in the
CubeMX descriptors. -/
def pvNode (v : String) : Xml :=
  Xml.node "SpecificParameter" [("Name", "GPIO_AF")] none
    [Xml.node "PossibleValue" [] (some v) []]

/-- A `PinSignal` element declaring an alternate function. -/
def pinSignalAf (name af : String) : Xml :=
  Xml.node "PinSignal" [("Name", name)] none [pvNode af]

/-- A named `RemapBlock` element. -/
def remapBlock (n : String) : Xml := Xml.node "RemapBlock" [("Name", n)] none []

/-- A `PinSignal` element declaring remap blocks. -/
def pinSignalRemap (name : String) (blocks : List String) : Xml :=
  Xml.node "PinSignal" [("Name", name)] none (blocks.map remapBlock)

/-- A `GPIO_Pin` element. -/
def gpioPin (name : String) (sigs : List Xml) : Xml :=
  Xml.node "GPIO_Pin" [("Name", name)] none sigs

/-- A `Pin` element of the part descriptor with its `Signal` children. -/
def partPin (name pos : String) (signames : List String) : Xml :=
  Xml.node "Pin" [("Name", name), ("Position", pos)] none
    (signames.map (fun s => Xml.node "Signal" [("Name", s)] none []))

/-- A part descriptor root with a GPIO IP of version `v1`. -/
def partRoot (pins : List Xml) : Xml :=
  Xml.node "Mcu" [("Line", "L"), ("Package", "K")] none
    (Xml.node "IP" [("Name", "GPIO"), ("Version", "v1")] none [] :: pins)

/-- A database lookup holding exactly one decoded document under one
name. -/
def oneFile (name : String) (doc : Xml) : String → Except String Xml :=
  fun f => if f == name then Except.ok doc else Except.error "No such file or directory"

/-- GPIO descriptor of the C3 scenario: `PA0` carries `USART2_TX` at
`GPIO_AF7_USART2`. -/
def gpioDocC3 : Xml :=
  Xml.node "IP" [] none [gpioPin "PA0" [pinSignalAf "USART2_TX" "GPIO_AF7_USART2"]]

/-- Part descriptor of the C3 scenario: pin `PA0` at position `0` with
signal `USART2_TX`. -/
def partDocC3 : Xml := partRoot [partPin "PA0" "0" ["USART2_TX"]]

/-- The loaded part of the C3 scenario. -/
def partC3 : PartInfo :=
  { part := "PART3", line := "L", package := "K", gpio_mode := GpioMode.AF,
    pins := [{ name := "PA0", position := "0",
               signals := [{ name := "USART2_TX", map := SignalMap.AF 7 }] }] }

/-- The C3 pipeline under the order choice `ord`: load the part, then
render with an empty exclusion list. -/
def runC3 (ord : OrdFn) : Except String (List Row) :=
  match PartInfo.new (oneFile "PART3" partDocC3) (oneFile "v1" gpioDocC3) "PART3" with
  | Except.error e => Except.error e
  | Except.ok part_info => write_pin_out ord [] part_info

example :
    PartInfo.new (oneFile "PART3" partDocC3) (oneFile "v1" gpioDocC3) "PART3" =
      Except.ok partC3 := by decide

example :
    runC3 ordId =
      Except.ok
        [["PA0", "0", "", "", "", "", "", "", "", "U2_TX", "", "", "", "", "", "",
          "", "", ""]] := by decide

/-- GPIO descriptor with two ADC inputs on one pin, both at AF 0: the
factorization of its rendered row opens two hash-map groups. -/
def gpioDocC1 : Xml :=
  Xml.node "IP" [] none
    [gpioPin "PA0"
      [pinSignalAf "ADC1_IN1" "GPIO_AF0_ADC", pinSignalAf "ADC1_IN2" "GPIO_AF0_ADC"]]

/-- Part descriptor joining both ADC signals onto pin `PA0`. -/
def partDocC1 : Xml := partRoot [partPin "PA0" "0" ["ADC1_IN1", "ADC1_IN2"]]

/-- The loaded part of the C1 counterexample. -/
def partC1 : PartInfo :=
  { part := "PART1", line := "L", package := "K", gpio_mode := GpioMode.AF,
    pins := [{ name := "PA0", position := "0",
               signals := [{ name := "ADC1_IN1", map := SignalMap.AF 0 },
                           { name := "ADC1_IN2", map := SignalMap.AF 0 }] }] }

example :
    PartInfo.new (oneFile "PART1" partDocC1) (oneFile "v1" gpioDocC1) "PART1" =
      Except.ok partC1 := by decide
example :
    write_pin_out ordId [] partC1 ≠ write_pin_out ordRev [] partC1 := by decide

/-- Part descriptor of the C9 counterexample: `PA0` additionally carries a
signal with no GPIO-descriptor entry. -/
def partDocC9 : Xml := partRoot [partPin "PA0" "0" ["USART2_TX", "RCC_OSC32_IN"]]

/-- The loaded part of the C9 counterexample: one alternate function and
one defaulted additional function. -/
def partC9 : PartInfo :=
  { part := "PART9", line := "L", package := "K", gpio_mode := GpioMode.AF,
    pins := [{ name := "PA0", position := "0",
               signals := [{ name := "USART2_TX", map := SignalMap.AF 7 },
                           { name := "RCC_OSC32_IN", map := SignalMap.AddF }] }] }

example :
    PartInfo.new (oneFile "PART9" partDocC9) (oneFile "v1" gpioDocC3) "PART9" =
      Except.ok partC9 := by decide

/-- GPIO descriptor of the remap scenario: `PB2`'s `SPI1_MOSI` is reachable
through remaps 0 and 2 (declared in descending order). -/
def gpioDocR : Xml :=
  Xml.node "IP" [] none
    [gpioPin "PB2"
      [pinSignalRemap "SPI1_MOSI"
        ["SPI1_REMAP2", "SPI1_REMAP0"]]]

example :
    load_gpios gpioDocR =
      Except.ok (GpioMode.Remap, [("PB2", [("SPI1_MOSI", SignalMap.Remap [2, 0])])]) := by
  decide
example :
    load_gpios gpioDocC3 =
      Except.ok (GpioMode.AF, [("PA0", [("USART2_TX", SignalMap.AF 7)])]) := by decide

/-!
## Theorems

### C4 — exclusion is the final stage
-/

/-- C4: for every exclusion fragment list, a name matching the compiled
alternation `^(?:p)[0-9_]` is dropped by the last stage of
`signal_filter` — after substitution and factorization — so no name in any
output column of any rendered cell matches the exclusion set. -/
theorem excluded_name_never_in_cell (ord : OrdFn) (ps : List Frag)
    (name position : String) (cols : List (List Chars)) :
    ∀ col ∈ signal_filter ord ps name position cols, ∀ t ∈ col,
      excludesMatch ps t = false := by
  intro col hcol t ht
  unfold signal_filter at hcol
  rw [List.mem_map] at hcol
  obtain ⟨src, _, rfl⟩ := hcol
  have h := List.of_mem_filter ht
  simpa using h

/-- Witness for C4: with the fragment matching exactly `ADC`, the surviving
cell entry `S1_MOSI` of the filtered column does not match the exclusion
set (while `ADC1_IN1` was dropped). -/
theorem excluded_name_never_in_cell_witness :
    excludesMatch [fun l => decide (l = "ADC".data)] "S1_MOSI".data = false :=
  excluded_name_never_in_cell ordId [fun l => decide (l = "ADC".data)] "PA0" "0"
    [["ADC1_IN1".data, "SPI1_MOSI".data]] ["S1_MOSI".data] (by decide)
    "S1_MOSI".data (by decide)

/-!
### C5 — Remap rendering sorts the remap indices
-/

/-- C5: in Remap mode the rendered name of a signal with remap index list
`l` is the signal name followed by the ascending, comma-joined indices in
parentheses (empty parentheses for an empty list), and the rendering is
invariant under the order the indices appeared in the descriptor. -/
theorem remap_name_sorted_indices (name : String) (l l' : List Nat)
    (hp : l.Perm l') :
    (∃ out : List Nat,
        renderRemapName { name := name, map := SignalMap.Remap l } =
          name ++ "(" ++
            String.intercalate "," (out.map (fun x => toString x)) ++ ")" ∧
        out.Perm l ∧ out.Sorted (· ≤ ·)) ∧
    renderRemapName { name := name, map := SignalMap.Remap l } =
      renderRemapName { name := name, map := SignalMap.Remap l' } := by
  constructor
  · exact ⟨l.insertionSort (· ≤ ·), rfl, List.perm_insertionSort _ _,
      List.sorted_insertionSort _ _⟩
  · have he : l.insertionSort (· ≤ ·) = l'.insertionSort (· ≤ ·) :=
      List.eq_of_perm_of_sorted
        ((List.perm_insertionSort _ _).trans
          (hp.trans (List.perm_insertionSort _ _).symm))
        (List.sorted_insertionSort _ _) (List.sorted_insertionSort _ _)
    simp [renderRemapName, he]

/-- Witness for C5: the index list `[3, 1, 2]` renders exactly as the
already-sorted `[1, 2, 3]` does, i.e. as `NAME(1,2,3)`. -/
theorem remap_name_sorted_indices_witness :
    renderRemapName { name := "SPI1_MOSI", map := SignalMap.Remap [3, 1, 2] } =
      renderRemapName { name := "SPI1_MOSI", map := SignalMap.Remap [1, 2, 3] } :=
  (remap_name_sorted_indices "SPI1_MOSI" [3, 1, 2] [1, 2, 3] (by decide)).2

example :
    renderRemapName { name := "SPI1_MOSI", map := SignalMap.Remap [3, 1, 2] } =
      "SPI1_MOSI(1,2,3)" := by decide
example :
    renderRemapName { name := "X", map := SignalMap.Remap [] } = "X()" := by decide

/-!
### C7 — `parse_af` decoding and error cases
-/

lemma dropLit_append (l r : Chars) : dropLit l (l ++ r) = some r := by
  induction l with
  | nil => rfl
  | cons c cs ih => simp [dropLit, ih]

lemma dropLit_none (l s : Chars) (h : l.isPrefixOf s = false) : dropLit l s = none := by
  induction l generalizing s with
  | nil => simp [List.isPrefixOf] at h
  | cons c cs ih =>
    cases s with
    | nil => rfl
    | cons d ds =>
      cases hc : c == d with
      | true =>
        simp only [List.isPrefixOf, hc, Bool.true_and] at h
        simp [dropLit, hc, ih ds h]
      | false => simp [dropLit, hc]

lemma idxOfUnd_none (l : Chars) (h : ¬ '_' ∈ l) : idxOfUnd l = none := by
  induction l with
  | nil => rfl
  | cons c r ih =>
    simp only [List.mem_cons, not_or] at h
    have hc : (c == '_') = false := by
      simp only [beq_eq_false_iff_ne]
      exact fun he => h.1 he.symm
    simp [idxOfUnd, hc, ih h.2]

lemma idxOfUnd_append (ds rest : Chars) (h : ¬ '_' ∈ ds) :
    idxOfUnd (ds ++ '_' :: rest) = some ds.length := by
  induction ds with
  | nil => simp [idxOfUnd]
  | cons c r ih =>
    simp only [List.mem_cons, not_or] at h
    have hc : (c == '_') = false := by
      simp only [beq_eq_false_iff_ne]
      exact fun he => h.1 he.symm
    simp [idxOfUnd, hc, ih h.2]

lemma take_len_append (l r : Chars) : (l ++ r).take l.length = l := by
  induction l with
  | nil => rfl
  | cons c cs ih => simp [ih]

/-- C7: in AF decoding, `parse_af` locates the first `PossibleValue`
descendant and decodes `GPIO_AF<n>_...`; a missing `PossibleValue` node, a
missing text, a text not starting with `GPIO_AF`, a missing underscore
after the prefix, or a non-numeric index substring each produce a decode
error, and on a well-formed value the index between the prefix and the
first underscore is returned. -/
theorem parse_af_cases (signal pv : Xml) (t : String) (ds rest : Chars) (n : Nat) :
    (firstPV signal = none → parse_af signal = Except.error "no AF found") ∧
    (firstPV signal = some pv → pv.text = none →
      parse_af signal = Except.error "no AF text") ∧
    (firstPV signal = some pv → pv.text = some t →
      kGpioAf.isPrefixOf t.data = false →
      parse_af signal = Except.error "not an AF") ∧
    (firstPV signal = some pv → pv.text = some t →
      t.data = kGpioAf ++ rest → ¬ '_' ∈ rest →
      parse_af signal = Except.error "not an AF") ∧
    (firstPV signal = some pv → pv.text = some t →
      t.data = kGpioAf ++ (ds ++ '_' :: rest) → ¬ '_' ∈ ds → parseU8 ds = none →
      parse_af signal = Except.error "invalid digit found in string") ∧
    (firstPV signal = some pv → pv.text = some t →
      t.data = kGpioAf ++ (ds ++ '_' :: rest) → ¬ '_' ∈ ds → parseU8 ds = some n →
      parse_af signal = Except.ok (SignalMap.AF n)) := by
  refine ⟨?_, ?_, ?_, ?_, ?_, ?_⟩
  · intro hf; simp [parse_af, hf]
  · intro hf htx; simp [parse_af, hf, htx]
  · intro hf htx hpre; simp [parse_af, hf, htx, dropLit_none _ _ hpre]
  · intro hf htx hdata hnu
    simp [parse_af, hf, htx, hdata, dropLit_append, idxOfUnd_none _ hnu]
  · intro hf htx hdata hnd hpu
    simp [parse_af, hf, htx, hdata, dropLit_append, idxOfUnd_append _ _ hnd,
      take_len_append, hpu]
  · intro hf htx hdata hnd hpu
    simp [parse_af, hf, htx, hdata, dropLit_append, idxOfUnd_append _ _ hnd,
      take_len_append, hpu]

/-- Witness for C7: the C3 scenario's signal element decodes to AF 7 from
the text `GPIO_AF7_USART2`. -/
theorem parse_af_cases_witness :
    parse_af (pinSignalAf "USART2_TX" "GPIO_AF7_USART2") =
      Except.ok (SignalMap.AF 7) :=
  (parse_af_cases (pinSignalAf "USART2_TX" "GPIO_AF7_USART2")
      (Xml.node "PossibleValue" [] (some "GPIO_AF7_USART2") [])
      "GPIO_AF7_USART2" ['7'] "USART2".data 7).2.2.2.2.2
    rfl rfl (by decide) (by decide) (by decide)

/-!
### C10 — the AF renderer's unchecked bucket index
-/

/-- A signal map the AF bucketing loop handles without aborting. -/
def afIndexOk : SignalMap → Bool
  | SignalMap.AF n => decide (n < 17)
  | SignalMap.AddF => true
  | SignalMap.Remap _ => false

/-- A signal map that does not take the `Remap` panic branch. -/
def notRemap : SignalMap → Bool
  | SignalMap.Remap _ => false
  | _ => true

lemma bucketStep_ok (buckets : List (List Chars)) (s : SignalInfo)
    (hlen : buckets.length = 17) (h : afIndexOk s.map = true) :
    ∃ b, bucketStep buckets s = Except.ok b ∧ b.length = 17 := by
  cases hm : s.map with
  | AF n =>
    rw [hm] at h
    simp only [afIndexOk, decide_eq_true_eq] at h
    refine ⟨buckets.set n ((buckets.getD n []) ++ [s.name.data]), ?_, ?_⟩
    · simp [bucketStep, hm, hlen, h]
    · simp [hlen]
  | AddF =>
    refine ⟨buckets.set (buckets.length - 1)
      ((buckets.getD (buckets.length - 1) []) ++ [s.name.data]), ?_, ?_⟩
    · simp [bucketStep, hm, hlen]
    · simp [hlen]
  | Remap l =>
    rw [hm] at h
    simp [afIndexOk] at h

lemma bucketStep_oob (buckets : List (List Chars)) (s : SignalInfo) (n : Nat)
    (hlen : buckets.length = 17) (hm : s.map = SignalMap.AF n) (hn : 17 ≤ n) :
    bucketStep buckets s = Except.error "index out of bounds" := by
  have hlt : ¬ n < buckets.length := by omega
  simp [bucketStep, hm, hlt]

lemma bucketGo_ok (signals : List SignalInfo) :
    ∀ buckets : List (List Chars), buckets.length = 17 →
      (∀ s ∈ signals, afIndexOk s.map = true) →
      ∃ b, bucketGo signals buckets = Except.ok b := by
  induction signals with
  | nil => exact fun b _ _ => ⟨b, rfl⟩
  | cons s rest ih =>
    intro buckets hlen h
    obtain ⟨b', hb', hlen'⟩ := bucketStep_ok buckets s hlen (h s (List.mem_cons_self _ _))
    obtain ⟨b, hb⟩ := ih b' hlen' (fun x hx => h x (List.mem_cons_of_mem _ hx))
    exact ⟨b, by simp [bucketGo, hb', hb]⟩

/-- A signal map that makes the bucketing loop index out of range. -/
def afTooBig : SignalMap → Bool
  | SignalMap.AF n => decide (17 ≤ n)
  | _ => false

lemma bucketGo_oob (signals : List SignalInfo) :
    ∀ buckets : List (List Chars), buckets.length = 17 →
      (∀ s ∈ signals, notRemap s.map = true) →
      (∃ s ∈ signals, afTooBig s.map = true) →
      bucketGo signals buckets = Except.error "index out of bounds" := by
  induction signals with
  | nil =>
    intro b _ _ hbad
    simp at hbad
  | cons s rest ih =>
    intro buckets hlen h hbad
    by_cases hok : afIndexOk s.map = true
    · obtain ⟨b', hb', hlen'⟩ := bucketStep_ok buckets s hlen hok
      have hbad' : ∃ x ∈ rest, afTooBig x.map = true := by
        rcases hbad with ⟨x, hx, hbig⟩
        rcases List.mem_cons.mp hx with rfl | hx'
        · exfalso
          cases hm : x.map with
          | AF n =>
            rw [hm] at hok hbig
            simp only [afIndexOk, decide_eq_true_eq] at hok
            simp only [afTooBig, decide_eq_true_eq] at hbig
            omega
          | AddF => rw [hm] at hbig; simp [afTooBig] at hbig
          | Remap l => rw [hm] at hbig; simp [afTooBig] at hbig
        · exact ⟨x, hx', hbig⟩
      simp only [bucketGo, hb']
      exact ih b' hlen' (fun x hx => h x (List.mem_cons_of_mem _ hx)) hbad'
    · have hnr := h s (List.mem_cons_self _ _)
      cases hm : s.map with
      | AF n =>
        rw [hm] at hok
        simp only [afIndexOk, decide_eq_true_eq] at hok
        have hstep := bucketStep_oob buckets s n hlen hm (by omega)
        simp [bucketGo, hstep]
      | AddF =>
        rw [hm] at hok
        simp [afIndexOk] at hok
      | Remap l =>
        rw [hm] at hnr
        simp [notRemap] at hnr

lemma mapExcept_ok_of_forall {α β : Type} (f : α → Except String β) (l : List α)
    (h : ∀ a ∈ l, ∃ b, f a = Except.ok b) : ∃ bs, mapExcept f l = Except.ok bs := by
  induction l with
  | nil => exact ⟨[], rfl⟩
  | cons a l ih =>
    obtain ⟨b, hb⟩ := h a (List.mem_cons_self _ _)
    obtain ⟨bs, hbs⟩ := ih (fun x hx => h x (List.mem_cons_of_mem _ hx))
    exact ⟨b :: bs, by simp [mapExcept, hb, hbs]⟩

lemma mapExcept_error_first {α β : Type} (f : α → Except String β) (l : List α)
    (E : String) (h : ∀ a ∈ l, (∃ b, f a = Except.ok b) ∨ f a = Except.error E)
    (hbad : ∃ a ∈ l, f a = Except.error E) :
    mapExcept f l = Except.error E := by
  induction l with
  | nil => simp at hbad
  | cons a l ih =>
    rcases h a (List.mem_cons_self _ _) with ⟨b, hb⟩ | herr
    · have hbad' : ∃ x ∈ l, f x = Except.error E := by
        rcases hbad with ⟨x, hx, hxe⟩
        rcases List.mem_cons.mp hx with rfl | hx'
        · rw [hb] at hxe
          cases hxe
        · exact ⟨x, hx', hxe⟩
      simp [mapExcept, hb, ih (fun x hx => h x (List.mem_cons_of_mem _ hx)) hbad']
    · simp [mapExcept, herr]

lemma afRow_ok (ord : OrdFn) (ps : List Frag) (pin : PinInfo)
    (h : ∀ s ∈ pin.signals, afIndexOk s.map = true) :
    ∃ row, afRow ord ps pin = Except.ok row := by
  obtain ⟨b, hb⟩ := bucketGo_ok pin.signals (List.replicate 17 []) (by simp) h
  refine ⟨[pin.name, pin.position] ++
    (signal_filter ord ps pin.name pin.position b).map joinCell, ?_⟩
  simp only [afRow, bucketAF]
  rw [hb]

lemma afRow_oob (ord : OrdFn) (ps : List Frag) (pin : PinInfo)
    (h : ∀ s ∈ pin.signals, notRemap s.map = true)
    (hbad : ∃ s ∈ pin.signals, afTooBig s.map = true) :
    afRow ord ps pin = Except.error "index out of bounds" := by
  have hb := bucketGo_oob pin.signals (List.replicate 17 []) (by simp) h hbad
  simp only [afRow, bucketAF]
  rw [hb]

/-- C10: the AF renderer buckets by the raw decoded AF number into the
17-slot array with no range check: when every signal map is an in-range
alternate function or an additional function, rendering succeeds; but as
soon as some signal decodes to an AF index of 17 or more (with no signal
taking the other panic branch first), the renderer aborts with the
out-of-bounds panic instead of returning rows. -/
theorem af_renderer_unchecked_index (ord : OrdFn) (ps : List Frag)
    (part_info : PartInfo) :
    ((∀ pin ∈ part_info.pins, ∀ s ∈ pin.signals, afIndexOk s.map = true) →
      ∃ rows, write_pin_out_af ord ps part_info = Except.ok rows) ∧
    ((∀ pin ∈ part_info.pins, ∀ s ∈ pin.signals, notRemap s.map = true) →
      (∃ pin ∈ part_info.pins, ∃ s ∈ pin.signals, afTooBig s.map = true) →
      write_pin_out_af ord ps part_info = Except.error "index out of bounds") := by
  constructor
  · intro h
    exact mapExcept_ok_of_forall _ _ (fun pin hpin => afRow_ok ord ps pin (h pin hpin))
  · intro h hbad
    apply mapExcept_error_first
    · intro pin hpin
      by_cases hok : ∃ s ∈ pin.signals, afTooBig s.map = true
      · exact Or.inr (afRow_oob ord ps pin (h pin hpin) hok)
      · refine Or.inl (afRow_ok ord ps pin ?_)
        intro s hs
        have hnr := h pin hpin s hs
        cases hm : s.map with
        | AF n =>
          simp only [afIndexOk, decide_eq_true_eq]
          by_contra hlt
          refine hok ⟨s, hs, ?_⟩
          rw [hm]
          simp only [afTooBig, decide_eq_true_eq]
          omega
        | AddF => rfl
        | Remap l =>
          rw [hm] at hnr
          simp [notRemap] at hnr
    · rcases hbad with ⟨pin, hpin, hbig⟩
      exact ⟨pin, hpin, afRow_oob ord ps pin (h pin hpin) hbig⟩

/-- An AF-mode part whose decoded AF indices are all in range. -/
def partC10good : PartInfo :=
  { part := "G", line := "L", package := "K", gpio_mode := GpioMode.AF,
    pins := [{ name := "PA0", position := "0",
               signals := [{ name := "SPI1_MOSI", map := SignalMap.AF 5 },
                           { name := "RCC_OSC", map := SignalMap.AddF }] }] }

/-- An AF-mode part with one signal decoded to AF 17. -/
def partC10bad : PartInfo :=
  { part := "B", line := "L", package := "K", gpio_mode := GpioMode.AF,
    pins := [{ name := "PA0", position := "0",
               signals := [{ name := "XYZ1_A", map := SignalMap.AF 17 }] }] }

/-- Witness for C10: an in-range part renders, the part with AF 17 hits the
out-of-bounds panic. -/
theorem af_renderer_unchecked_index_witness :
    (∃ rows, write_pin_out_af ordId [] partC10good = Except.ok rows) ∧
    write_pin_out_af ordId [] partC10bad = Except.error "index out of bounds" :=
  ⟨(af_renderer_unchecked_index ordId [] partC10good).1 (by decide),
   (af_renderer_unchecked_index ordId [] partC10bad).2 (by decide)
     ⟨{ name := "PA0", position := "0",
        signals := [{ name := "XYZ1_A", map := SignalMap.AF 17 }] },
      by decide, { name := "XYZ1_A", map := SignalMap.AF 17 }, by decide, by decide⟩⟩

/-!
### C6 — when a malformed exclusion fragment's error is surfaced
-/

/-- C6 as stated: whenever the exclusion list fails to compile (with error
`e`), the `table` command surfaces `e` before any data processing, so the
state of the descriptor database cannot mask the compilation error. -/
def C6Claim : Prop :=
  ∀ (ord : OrdFn) (mcu gpioDb : String → Except String Xml)
    (exclude : List (Except String Frag)) (part : String) (e : String),
    mapExcept (fun c => c) exclude = Except.error e →
    table_command ord mcu gpioDb exclude part = Except.error e

/-- Counterexample for C6: with a missing part file and a malformed
fragment, the `table` command runs `PartInfo::new` first, so the surfaced
error is the file error, not the filter compilation error. -/
theorem compile_error_not_first : ¬ C6Claim := by
  intro h
  have hres := h ordId (oneFile "PART3" partDocC3) (oneFile "v1" gpioDocC3)
    [Except.error "regex parse error"] "MISSING" "regex parse error" rfl
  have hactual : table_command ordId (oneFile "PART3" partDocC3)
      (oneFile "v1" gpioDocC3) [Except.error "regex parse error"] "MISSING" =
      Except.error "No such file or directory" := by decide
  rw [hactual] at hres
  exact absurd hres (by decide)

/-- C6 amended: the compilation error of a malformed exclusion fragment is
surfaced after part loading and before rendering — whenever the part loads
successfully and the exclusion list fails to compile, the command returns
the compilation error and emits no rows. -/
theorem compile_error_before_rendering (ord : OrdFn)
    (mcu gpioDb : String → Except String Xml)
    (exclude : List (Except String Frag)) (part : String) (pi : PartInfo)
    (e : String) (hload : PartInfo.new mcu gpioDb part = Except.ok pi)
    (hcomp : mapExcept (fun c => c) exclude = Except.error e) :
    table_command ord mcu gpioDb exclude part = Except.error e := by
  simp only [table_command, hload, hcomp]

/-- Witness for C6 (amended): a loadable part plus one malformed fragment
yields exactly the compilation error. -/
theorem compile_error_before_rendering_witness :
    table_command ordId (oneFile "PART3" partDocC3) (oneFile "v1" gpioDocC3)
      [Except.error "regex parse error"] "PART3" =
      Except.error "regex parse error" :=
  compile_error_before_rendering ordId (oneFile "PART3" partDocC3)
    (oneFile "v1" gpioDocC3) [Except.error "regex parse error"] "PART3"
    { part := "PART3", line := "L", package := "K", gpio_mode := GpioMode.AF,
      pins := [{ name := "PA0", position := "0",
                 signals := [{ name := "USART2_TX", map := SignalMap.AF 7 }] }] }
    "regex parse error" (by decide) rfl

/-!
### C2 — the GPIO mode is decided by the first signal
-/

/-- The first `PinSignal` of the GPIO descriptor in document order: pins in
order, the first pin that has a signal child. -/
def firstPinSignal (root : Xml) : Option Xml :=
  (root.children.filter (fun n => n.tag == "GPIO_Pin")).findSome?
    (fun p => (p.children.filter (fun n => n.tag == "PinSignal")).head?)

/-- Does a signal map carry the variant of the given mode? -/
def mapMatches : GpioMode → SignalMap → Bool
  | GpioMode.AF, SignalMap.AF _ => true
  | GpioMode.Remap, SignalMap.Remap _ => true
  | _, _ => false

/-- Matching against a mode that may still be undecided. -/
def matchesOptR (o : Option GpioMode) (mp : SignalMap) : Prop :=
  ∀ m, o = some m → mapMatches m mp = true

lemma parse_af_is_AF (s : Xml) (m : SignalMap) (h : parse_af s = Except.ok m) :
    ∃ n, m = SignalMap.AF n := by
  unfold parse_af at h
  split at h
  · cases h
  · split at h
    · cases h
    · split at h
      · cases h
      · split at h
        · cases h
        · split at h
          · cases h
          · exact ⟨_, (Except.ok.inj h).symm⟩

lemma parse_remaps_is_Remap (s : Xml) (m : SignalMap)
    (h : parse_remaps s = Except.ok m) : ∃ l, m = SignalMap.Remap l := by
  unfold parse_remaps at h
  split at h
  · cases h
  · exact ⟨_, (Except.ok.inj h).symm⟩

lemma decodeSignal_matches (m : GpioMode) (s : Xml) (mp : SignalMap)
    (h : decodeSignal m s = Except.ok mp) : mapMatches m mp = true := by
  cases m with
  | AF =>
    obtain ⟨n, rfl⟩ := parse_af_is_AF s mp h
    rfl
  | Remap =>
    obtain ⟨l, rfl⟩ := parse_remaps_is_Remap s mp h
    rfl

lemma mem_insertA {α : Type} (l : List (String × α)) (k : String) (v : α)
    (e : String × α) (he : e ∈ insertA l k v) : e ∈ l ∨ e.2 = v := by
  unfold insertA at he
  split at he
  · rw [List.mem_map] at he
    obtain ⟨p, hp, hpe⟩ := he
    by_cases hk : (p.1 == k) = true
    · rw [if_pos hk] at hpe
      right
      rw [← hpe]
    · rw [if_neg hk] at hpe
      left
      rw [← hpe]
      exact hp
  · rcases List.mem_append.mp he with h | h
    · exact Or.inl h
    · simp only [List.mem_singleton] at h
      right
      rw [h]

lemma load_signals_mode_fixed (sigs : List Xml) :
    ∀ (m : GpioMode) (acc : SigsMap) (res : Option GpioMode × SigsMap),
      load_signals (some m) sigs acc = Except.ok res → res.1 = some m := by
  induction sigs with
  | nil =>
    intro m acc res h
    simp only [load_signals, Except.ok.injEq] at h
    rw [← h]
  | cons s rest ih =>
    intro m acc res h
    simp only [load_signals, Option.getD_some] at h
    split at h
    · cases h
    · split at h
      · cases h
      · exact ih m _ res h

lemma load_signals_none_first (s : Xml) (rest : List Xml) (acc : SigsMap)
    (res : Option GpioMode × SigsMap)
    (h : load_signals none (s :: rest) acc = Except.ok res) :
    res.1 = some (modeOfSignal s) := by
  simp only [load_signals, Option.getD_none] at h
  split at h
  · cases h
  · split at h
    · cases h
    · exact load_signals_mode_fixed rest _ _ _ h

lemma load_signals_none_out (sigs : List Xml) :
    ∀ (mode : Option GpioMode) (acc : SigsMap) (out : SigsMap),
      load_signals mode sigs acc = Except.ok (none, out) → out = acc := by
  cases sigs with
  | nil =>
    intro mode acc out h
    simp only [load_signals, Except.ok.injEq, Prod.mk.injEq] at h
    rw [h.2]
  | cons s rest =>
    intro mode acc out h
    simp only [load_signals] at h
    split at h
    · cases h
    · split at h
      · cases h
      · have h2 := load_signals_mode_fixed rest _ _ _ h
        simp at h2

lemma load_signals_entries (sigs : List Xml) :
    ∀ (mode : Option GpioMode) (acc : SigsMap) (m₂ : Option GpioMode)
      (out : SigsMap),
      load_signals mode sigs acc = Except.ok (m₂, out) →
      (∀ e ∈ acc, matchesOptR m₂ e.2) →
      ∀ e ∈ out, matchesOptR m₂ e.2 := by
  induction sigs with
  | nil =>
    intro mode acc m₂ out h hacc
    simp only [load_signals, Except.ok.injEq, Prod.mk.injEq] at h
    rw [← h.2]
    exact hacc
  | cons s rest ih =>
    intro mode acc m₂ out h hacc
    simp only [load_signals] at h
    split at h
    · cases h
    · rename_i map hdec
      split at h
      · cases h
      · refine ih _ _ _ _ h ?_
        intro e he
        rcases mem_insertA _ _ _ _ he with he' | he2
        · exact hacc e he'
        · intro mm hmm
          have hm₂ : m₂ = some (mode.getD (modeOfSignal s)) :=
            load_signals_mode_fixed rest _ _ _ h
          rw [hm₂] at hmm
          cases hmm
          rw [he2]
          exact decodeSignal_matches _ _ _ hdec

lemma load_pins_mode_fixed (pins : List Xml) :
    ∀ (m : GpioMode) (g : GpiosInfo) (res : Option GpioMode × GpiosInfo),
      load_pins (some m) pins g = Except.ok res → res.1 = some m := by
  induction pins with
  | nil =>
    intro m g res h
    simp only [load_pins, Except.ok.injEq] at h
    rw [← h]
  | cons pin rest ih =>
    intro m g res h
    simp only [load_pins] at h
    split at h
    · cases h
    · split at h
      · cases h
      · rename_i mode' sm hsig
        have hm := load_signals_mode_fixed _ _ _ _ hsig
        simp only at hm
        rw [hm] at h
        exact ih m _ res h

lemma load_pins_first_mode (pins : List Xml) :
    ∀ (g : GpiosInfo) (res : Option GpioMode × GpiosInfo) (sig : Xml),
      load_pins none pins g = Except.ok res →
      pins.findSome?
          (fun p => (p.children.filter (fun n => n.tag == "PinSignal")).head?) =
        some sig →
      res.1 = some (modeOfSignal sig) := by
  induction pins with
  | nil =>
    intro g res sig h hf
    simp at hf
  | cons pin rest ih =>
    intro g res sig h hf
    simp only [load_pins] at h
    split at h
    · cases h
    · split at h
      · cases h
      · rename_i mode' sm hsig
        rw [List.findSome?_cons] at hf
        cases hl : pin.children.filter (fun n => n.tag == "PinSignal") with
        | nil =>
          rw [hl] at hsig hf
          simp only [List.head?_nil] at hf
          simp only [load_signals, Except.ok.injEq, Prod.mk.injEq] at hsig
          rw [← hsig.1] at h
          exact ih _ res sig h hf
        | cons s0 t =>
          rw [hl] at hsig hf
          simp only [List.head?_cons, Option.some.injEq] at hf
          have hm := load_signals_none_first s0 t [] (mode', sm) hsig
          simp only at hm
          rw [hm] at h
          rw [← hf]
          exact load_pins_mode_fixed rest _ _ _ h

lemma load_pins_none_empty (pins : List Xml) :
    ∀ (g : GpiosInfo) (out : GpiosInfo),
      load_pins none pins g = Except.ok (none, out) →
      (∀ pe ∈ g, pe.2 = ([] : SigsMap)) → ∀ pe ∈ out, pe.2 = ([] : SigsMap) := by
  induction pins with
  | nil =>
    intro g out h hg
    simp only [load_pins, Except.ok.injEq, Prod.mk.injEq] at h
    rw [← h.2]
    exact hg
  | cons pin rest ih =>
    intro g out h hg
    simp only [load_pins] at h
    split at h
    · cases h
    · split at h
      · cases h
      · rename_i mode' sm hsig
        cases mode' with
        | some m =>
          have hm := load_pins_mode_fixed rest _ _ _ h
          simp at hm
        | none =>
          have hsm := load_signals_none_out _ _ _ _ hsig
          refine ih _ _ h ?_
          intro pe hpe
          rcases mem_insertA _ _ _ _ hpe with hpe' | hpe2
          · exact hg pe hpe'
          · rw [hpe2, hsm]

lemma load_pins_entries (pins : List Xml) :
    ∀ (mode : Option GpioMode) (g : GpiosInfo) (m₂ : Option GpioMode)
      (out : GpiosInfo),
      load_pins mode pins g = Except.ok (m₂, out) →
      (∀ pe ∈ g, ∀ se ∈ pe.2, matchesOptR m₂ se.2) →
      ∀ pe ∈ out, ∀ se ∈ pe.2, matchesOptR m₂ se.2 := by
  induction pins with
  | nil =>
    intro mode g m₂ out h hg
    simp only [load_pins, Except.ok.injEq, Prod.mk.injEq] at h
    rw [← h.2]
    exact hg
  | cons pin rest ih =>
    intro mode g m₂ out h hg
    simp only [load_pins] at h
    split at h
    · cases h
    · split at h
      · cases h
      · rename_i mode' sm hsig
        refine ih _ _ _ _ h ?_
        intro pe hpe
        rcases mem_insertA _ _ _ _ hpe with hpe' | hpe2
        · exact hg pe hpe'
        · rw [hpe2]
          intro se hse mm hmm
          cases mode' with
          | some m' =>
            have hm₂ : m₂ = some m' := load_pins_mode_fixed rest _ _ _ h
            rw [hm₂] at hmm
            cases hmm
            exact load_signals_entries _ _ _ _ _ hsig (by intro e he; cases he)
              se hse mm rfl
          | none =>
            have hsm := load_signals_none_out _ _ _ _ hsig
            rw [hsm] at hse
            cases hse

lemma load_gpios_maps (root : Xml) (m : GpioMode) (g : GpiosInfo)
    (h : load_gpios root = Except.ok (m, g)) :
    ∀ pe ∈ g, ∀ se ∈ pe.2, mapMatches m se.2 = true := by
  unfold load_gpios at h
  split at h
  · cases h
  · rename_i mode gpios hlp
    simp only [Except.ok.injEq, Prod.mk.injEq] at h
    cases mode with
    | some m₀ =>
      intro pe hpe se hse
      have hmm := load_pins_entries _ _ _ _ _ hlp (by intro pe hpe; cases hpe)
        pe (h.2 ▸ hpe) se hse m₀ rfl
      have hm : m = m₀ := by rw [← h.1]; rfl
      rw [hm]
      exact hmm
    | none =>
      intro pe hpe se hse
      have hemp := load_pins_none_empty _ _ _ hlp (by intro pe hpe; cases hpe)
        pe (h.2 ▸ hpe)
      rw [hemp] at hse
      cases hse

lemma load_gpios_first (root : Xml) (m : GpioMode) (g : GpiosInfo) (sig : Xml)
    (h : load_gpios root = Except.ok (m, g)) (hf : firstPinSignal root = some sig) :
    m = modeOfSignal sig := by
  unfold load_gpios at h
  split at h
  · cases h
  · rename_i mode gpios hlp
    simp only [Except.ok.injEq, Prod.mk.injEq] at h
    have hm : mode = some (modeOfSignal sig) :=
      load_pins_first_mode _ _ _ sig hlp hf
    rw [← h.1, hm]
    rfl

lemma isSome_find?_eq_any (p : Xml → Bool) (l : List Xml) :
    ((l.find? p).isSome) = l.any p := by
  induction l with
  | nil => rfl
  | cons c cs ih =>
    cases hc : p c with
    | true => simp [List.find?_cons, hc]
    | false => simp [List.find?_cons, hc, ih]

/-- C2: when the GPIO descriptor contains at least one `PinSignal`, the
returned mode is decided by the first one in document order — `Remap` iff
it has a `RemapBlock` child — and every signal map stored in the table
carries that mode's variant (it was decoded by that mode's parser). -/
theorem gpio_mode_decided_by_first_signal (root : Xml) (m : GpioMode)
    (g : GpiosInfo) (sig : Xml) (h : load_gpios root = Except.ok (m, g))
    (hfirst : firstPinSignal root = some sig) :
    m = (if sig.children.any (fun n => n.tag == "RemapBlock") then GpioMode.Remap
         else GpioMode.AF) ∧
    ∀ pe ∈ g, ∀ se ∈ pe.2, mapMatches m se.2 = true := by
  constructor
  · rw [load_gpios_first root m g sig h hfirst]
    unfold modeOfSignal
    rw [isSome_find?_eq_any]
  · exact load_gpios_maps root m g h

/-- Witness for C2: in the remap descriptor the first signal has
`RemapBlock` children, so the whole resolution is in Remap mode and every
stored map is a `Remap` variant. -/
theorem gpio_mode_decided_by_first_signal_witness :
    GpioMode.Remap =
      (if (pinSignalRemap "SPI1_MOSI" ["SPI1_REMAP2", "SPI1_REMAP0"]).children.any
          (fun n => n.tag == "RemapBlock") then GpioMode.Remap
       else GpioMode.AF) ∧
    ∀ pe ∈ [("PB2", [("SPI1_MOSI", SignalMap.Remap [2, 0])])], ∀ se ∈ pe.2,
      mapMatches GpioMode.Remap se.2 = true :=
  gpio_mode_decided_by_first_signal gpioDocR GpioMode.Remap
    [("PB2", [("SPI1_MOSI", SignalMap.Remap [2, 0])])]
    (pinSignalRemap "SPI1_MOSI" ["SPI1_REMAP2", "SPI1_REMAP0"]) (by decide) rfl

/-!
### C9 — which `SignalMap` variants one part can mix
-/

/-- Do two signal maps carry the same variant? -/
def sameVariant : SignalMap → SignalMap → Bool
  | SignalMap.AF _, SignalMap.AF _ => true
  | SignalMap.AddF, SignalMap.AddF => true
  | SignalMap.Remap _, SignalMap.Remap _ => true
  | _, _ => false

/-- C9 as stated: all signals of a successfully constructed part carry the
same `SignalMap` variant. -/
def C9Claim : Prop :=
  ∀ (mcu gpioDb : String → Except String Xml) (part : String) (pi : PartInfo),
    PartInfo.new mcu gpioDb part = Except.ok pi →
    ∀ pin₁ ∈ pi.pins, ∀ s₁ ∈ pin₁.signals, ∀ pin₂ ∈ pi.pins, ∀ s₂ ∈ pin₂.signals,
      sameVariant s₁.map s₂.map = true

/-- The pin of the C9 counterexample part. -/
def pinC9 : PinInfo :=
  { name := "PA0", position := "0",
    signals := [{ name := "USART2_TX", map := SignalMap.AF 7 },
                { name := "RCC_OSC32_IN", map := SignalMap.AddF }] }

/-- Counterexample for C9: a part whose pin carries one signal found in the
GPIO descriptor (an `AF` map) and one signal absent from it (defaulted to
`AddF`) is constructed successfully and mixes two variants. -/
theorem part_with_mixed_variants : ¬ C9Claim := by
  intro h
  have hx := h (oneFile "PART9" partDocC9) (oneFile "v1" gpioDocC3) "PART9" partC9
    (by decide) pinC9 (by decide)
    { name := "USART2_TX", map := SignalMap.AF 7 } (by decide)
    pinC9 (by decide)
    { name := "RCC_OSC32_IN", map := SignalMap.AddF } (by decide)
  exact absurd hx (by decide)

lemma mapExcept_mem {α β : Type} (f : α → Except String β) (l : List α) :
    ∀ bs : List β, mapExcept f l = Except.ok bs →
      ∀ b ∈ bs, ∃ a ∈ l, f a = Except.ok b := by
  induction l with
  | nil =>
    intro bs h b hb
    simp only [mapExcept, Except.ok.injEq] at h
    rw [← h] at hb
    cases hb
  | cons a l ih =>
    intro bs h b hb
    simp only [mapExcept] at h
    split at h
    · cases h
    · rename_i b0 hb0
      split at h
      · cases h
      · rename_i bs0 hbs0
        cases h
        rcases List.mem_cons.mp hb with rfl | hb'
        · exact ⟨a, List.mem_cons_self _ _, hb0⟩
        · obtain ⟨a', ha', hfa⟩ := ih bs0 hbs0 b hb'
          exact ⟨a', List.mem_cons_of_mem _ ha', hfa⟩

lemma lookupA_mem {α : Type} (l : List (String × α)) (k : String) (v : α)
    (h : lookupA l k = some v) : ∃ p ∈ l, p.2 = v := by
  unfold lookupA at h
  cases hf : l.find? (fun p => p.1 == k) with
  | none =>
    rw [hf] at h
    cases h
  | some p =>
    rw [hf] at h
    simp only [Option.map_some', Option.some.injEq] at h
    exact ⟨p, List.mem_of_find?_eq_some hf, h⟩

lemma parse_signal_map (sm : Option SigsMap) (s : Xml) (si : SignalInfo)
    (h : parse_signal sm s = Except.ok si) :
    si.map = SignalMap.AddF ∨ ∃ sm', sm = some sm' ∧ ∃ p ∈ sm', p.2 = si.map := by
  unfold parse_signal at h
  split at h
  · cases h
  · rename_i nm hattr
    cases h
    cases sm with
    | none => exact Or.inl rfl
    | some sm' =>
      cases hl : lookupA sm' nm with
      | none =>
        left
        simp only [hl, Option.getD_none]
      | some mp =>
        right
        refine ⟨sm', rfl, ?_⟩
        obtain ⟨p, hp, hpv⟩ := lookupA_mem _ _ _ hl
        refine ⟨p, hp, ?_⟩
        simp only [hl, Option.getD_some]
        exact hpv

lemma parse_pin_signals (g : GpiosInfo) (n : Xml) (pin : PinInfo)
    (h : parse_pin g n = Except.ok pin) :
    ∀ s ∈ pin.signals, ∃ sx, parse_signal (lookupA g pin.name) sx = Except.ok s := by
  unfold parse_pin at h
  split at h
  · cases h
  · split at h
    · cases h
    · split at h
      · cases h
      · rename_i sigs hsigs
        cases h
        intro s hs
        obtain ⟨sx, _, hsx⟩ := mapExcept_mem _ _ _ hsigs s hs
        exact ⟨sx, hsx⟩

/-- C9 amended: every signal of a successfully constructed part carries
either the `AdditionalFunction` default or the variant matching the part's
GPIO mode — in particular a part never mixes `AF` and `Remap` maps, but
`AddF` defaults may sit beside either. -/
theorem part_maps_match_mode_or_addf (mcu gpioDb : String → Except String Xml)
    (part : String) (pi : PartInfo)
    (h : PartInfo.new mcu gpioDb part = Except.ok pi) :
    ∀ pin ∈ pi.pins, ∀ s ∈ pin.signals,
      s.map = SignalMap.AddF ∨ mapMatches pi.gpio_mode s.map = true := by
  unfold PartInfo.new at h
  split at h
  · cases h
  split at h
  · cases h
  split at h
  · cases h
  split at h
  · cases h
  split at h
  · cases h
  split at h
  · cases h
  split at h
  · cases h
  rename_i mg hmg
  split at h
  · cases h
  rename_i pins hpins
  obtain ⟨m₀, g₀⟩ := mg
  cases h
  intro pin hpin s hs
  obtain ⟨pinXml, _, hpp⟩ := mapExcept_mem _ _ _ hpins pin hpin
  obtain ⟨sx, hps⟩ := parse_pin_signals _ _ _ hpp s hs
  rcases parse_signal_map _ _ _ hps with haddf | ⟨sm', hsm', p, hp, hpv⟩
  · exact Or.inl haddf
  · right
    obtain ⟨pe, hpe, hpev⟩ := lookupA_mem _ _ _ hsm'
    have hmm := load_gpios_maps _ _ _ hmg pe hpe p (by rw [hpev]; exact hp)
    rw [← hpv]
    exact hmm

/-- Witness for C9 (amended): in the mixed part the defaulted signal is
covered by the `AddF` disjunct. -/
theorem part_maps_match_mode_or_addf_witness :
    ({ name := "RCC_OSC32_IN", map := SignalMap.AddF } : SignalInfo).map =
        SignalMap.AddF ∨
      mapMatches partC9.gpio_mode
        ({ name := "RCC_OSC32_IN", map := SignalMap.AddF } : SignalInfo).map =
        true :=
  part_maps_match_mode_or_addf (oneFile "PART9" partDocC9)
    (oneFile "v1" gpioDocC3) "PART9" partC9 (by decide) pinC9 (by decide)
    { name := "RCC_OSC32_IN", map := SignalMap.AddF } (by decide)

/-!
### C1 — determinism of load + render

`factorize` iterates a Rust `HashMap`, whose iteration order is randomized
per process; a run of the program therefore corresponds to some
permutation-choosing `OrdFn`.  Rendering is a pure function of the input
only when no factorization rule ever opens two or more distinct groups in
one cell — otherwise two runs may emit the groups in different orders and,
when a later rule merges them, even different cell text.
-/

lemma permFn_ordId : PermFn ordId := fun g => List.Perm.refl g

lemma permFn_ordRev : PermFn ordRev := fun g => List.reverse_perm g

lemma permFn_small (f : OrdFn) (hf : PermFn f) (g : Groups) (h : g.length ≤ 1) :
    f g = g := by
  cases g with
  | nil => exact List.perm_nil.mp (hf [])
  | cons a g' =>
    cases g' with
    | nil => exact List.perm_singleton.mp (hf [a])
    | cons b g'' => simp at h

lemma factorize_permFn_eq (f : OrdFn) (hf : PermFn f)
    (capt : Chars → Option (Chars × Chars × Chars)) (sep : Chars)
    (it : List Chars) (h : (splitFacts capt it).1.length ≤ 1) :
    factorize f capt sep it = factorize ordId capt sep it := by
  simp only [factorize, ordId]
  rw [permFn_small f hf _ h]

/-- Group counts along the canonical factorization stages of one cell: the
cell renders order-independently when every stage opens at most one
group. -/
def detStages : List Chars →
    List ((Chars → Option (Chars × Chars × Chars)) × Chars) → Bool
  | _, [] => true
  | l, fs :: rest =>
    decide ((splitFacts fs.1 l).1.length ≤ 1) &&
      detStages (factorize ordId fs.1 fs.2 l) rest

lemma factsFold_permFn_eq
    (fs : List ((Chars → Option (Chars × Chars × Chars)) × Chars)) :
    ∀ (f : OrdFn), PermFn f → ∀ l : List Chars, detStages l fs = true →
      fs.foldl (fun acc p => factorize f p.1 p.2 acc) l =
        fs.foldl (fun acc p => factorize ordId p.1 p.2 acc) l := by
  induction fs with
  | nil =>
    intro f hf l h
    rfl
  | cons p rest ih =>
    intro f hf l h
    simp only [detStages, Bool.and_eq_true, decide_eq_true_eq] at h
    simp only [List.foldl_cons]
    rw [factorize_permFn_eq f hf p.1 p.2 l h.1]
    exact ih f hf _ h.2

/-- Order-independence test for one column of names. -/
def detCol (names : List Chars) : Bool := detStages (names.map subsAll) factsList

lemma signal_filter_permFn_eq (f : OrdFn) (hf : PermFn f) (ps : List Frag)
    (name position : String) (cols : List (List Chars))
    (h : ∀ c ∈ cols, detCol c = true) :
    signal_filter f ps name position cols =
      signal_filter ordId ps name position cols := by
  unfold signal_filter
  apply List.map_congr_left
  intro c hc
  dsimp only
  rw [factsFold_permFn_eq factsList f hf (c.map subsAll) (h c hc)]

/-- Order-independence test for one pin of an AF part. -/
def detPinB (pin : PinInfo) : Bool :=
  match bucketAF pin.signals with
  | Except.ok buckets => buckets.all detCol
  | Except.error _ => true

/-- Order-independence test for a whole AF part. -/
def detPart (pi : PartInfo) : Bool := pi.pins.all detPinB

lemma afRow_permFn_eq (f : OrdFn) (hf : PermFn f) (ps : List Frag)
    (pin : PinInfo) (h : detPinB pin = true) :
    afRow f ps pin = afRow ordId ps pin := by
  unfold detPinB at h
  unfold afRow
  cases hb : bucketAF pin.signals with
  | error e => rfl
  | ok buckets =>
    rw [hb] at h
    dsimp only at h ⊢
    rw [signal_filter_permFn_eq f hf ps pin.name pin.position buckets
      (List.all_eq_true.mp h)]

lemma mapExcept_congr {α β : Type} (f g : α → Except String β) (l : List α)
    (h : ∀ a ∈ l, f a = g a) : mapExcept f l = mapExcept g l := by
  induction l with
  | nil => rfl
  | cons a l ih =>
    simp only [mapExcept]
    rw [h a (List.mem_cons_self _ _)]
    cases hga : g a with
    | error e => rfl
    | ok b => rw [ih (fun x hx => h x (List.mem_cons_of_mem _ hx))]

lemma write_pin_out_af_permFn_eq (f : OrdFn) (hf : PermFn f) (ps : List Frag)
    (pi : PartInfo) (h : detPart pi = true) :
    write_pin_out_af f ps pi = write_pin_out_af ordId ps pi := by
  unfold write_pin_out_af
  exact mapExcept_congr _ _ _
    (fun pin hpin => afRow_permFn_eq f hf ps pin (List.all_eq_true.mp h pin hpin))

/-- C1 as stated: for every well-formed AF-mode input, two runs (any two
hash-map iteration orders) of load + render produce identical rows. -/
def C1Claim : Prop :=
  ∀ (o₁ o₂ : OrdFn), PermFn o₁ → PermFn o₂ →
    ∀ (mcu gpioDb : String → Except String Xml) (p : String)
      (excl : List Frag) (pi : PartInfo),
      PartInfo.new mcu gpioDb p = Except.ok pi →
      pi.gpio_mode = GpioMode.AF →
      write_pin_out o₁ excl pi = write_pin_out o₂ excl pi

/-- Counterexample for C1: the part carrying `ADC1_IN1` and `ADC1_IN2` on
one pin opens two factorization groups whose emission order follows the
hash map; two iteration orders yield the cells `ADC1_IN12` and `ADC1_IN21`
respectively. -/
theorem af_render_order_dependent : ¬ C1Claim := by
  intro h
  have hx := h ordId ordRev permFn_ordId permFn_ordRev
    (oneFile "PART1" partDocC1) (oneFile "v1" gpioDocC1) "PART1" [] partC1
    (by decide) rfl
  exact absurd hx (by decide)

/-- C1 amended: load + render of an AF-mode part is deterministic —
identical for every pair of hash-map iteration orders — provided no
factorization stage opens two or more distinct groups within one cell
(`detPart`); the counterexample forces exactly this proviso. -/
theorem af_render_deterministic_when_groups_unique (o₁ o₂ : OrdFn)
    (h₁ : PermFn o₁) (h₂ : PermFn o₂) (ps : List Frag) (pi : PartInfo)
    (hmode : pi.gpio_mode = GpioMode.AF) (hdet : detPart pi = true) :
    write_pin_out o₁ ps pi = write_pin_out o₂ ps pi := by
  unfold write_pin_out
  rw [hmode]
  rw [write_pin_out_af_permFn_eq o₁ h₁ ps pi hdet,
    write_pin_out_af_permFn_eq o₂ h₂ ps pi hdet]

/-- Witness for C1 (amended): the C3 part satisfies the group-uniqueness
proviso, so the identity and reversed iteration orders render it
identically. -/
theorem af_render_deterministic_when_groups_unique_witness :
    write_pin_out ordId [] partC3 = write_pin_out ordRev [] partC3 :=
  af_render_deterministic_when_groups_unique ordId ordRev permFn_ordId
    permFn_ordRev [] partC3 rfl (by decide)

/-!
### C3 — the USART2_TX scenario row
-/

/-- The row the claim expects: the raw name `USART2_TX` in the AF7 cell. -/
def c3ClaimRow : Row :=
  ["PA0", "0", "", "", "", "", "", "", "", "USART2_TX", "", "", "", "", "", "",
   "", "", ""]

/-- The row the program produces: the substitution pass shortens
`USART2_TX` to `U2_TX` before the cell is emitted. -/
def c3ActualRow : Row :=
  ["PA0", "0", "", "", "", "", "", "", "", "U2_TX", "", "", "", "", "", "", "",
   "", ""]

/-- Counterexample for C3: the pipeline on the scenario input does not emit
the claimed row — the AF7 cell holds `U2_TX`, not `USART2_TX`. -/
theorem c3_scenario_not_raw_name :
    runC3 ordId ≠ Except.ok [c3ClaimRow] ∧ runC3 ordId = Except.ok [c3ActualRow] := by
  constructor
  · decide
  · decide

/-- C3 amended: on the scenario input the part loads in AF mode and every
run (any hash-map iteration order) emits exactly one row with the
substituted name `U2_TX` in the cell for AF index 7. -/
theorem c3_scenario_renders_substituted (o : OrdFn) (ho : PermFn o) :
    (∃ pi, PartInfo.new (oneFile "PART3" partDocC3) (oneFile "v1" gpioDocC3)
        "PART3" = Except.ok pi ∧ pi.gpio_mode = GpioMode.AF) ∧
    runC3 o = Except.ok [c3ActualRow] := by
  have hload : PartInfo.new (oneFile "PART3" partDocC3) (oneFile "v1" gpioDocC3)
      "PART3" = Except.ok partC3 := by decide
  constructor
  · exact ⟨partC3, hload, rfl⟩
  · unfold runC3
    rw [hload]
    have heq : write_pin_out o [] partC3 = write_pin_out ordId [] partC3 := by
      have hd : detPart partC3 = true := by decide
      unfold write_pin_out
      exact write_pin_out_af_permFn_eq o ho [] partC3 hd
    dsimp only
    rw [heq]
    decide

/-- Witness for C3 (amended): instantiated at the reversed iteration
order. -/
theorem c3_scenario_renders_substituted_witness :
    (∃ pi, PartInfo.new (oneFile "PART3" partDocC3) (oneFile "v1" gpioDocC3)
        "PART3" = Except.ok pi ∧ pi.gpio_mode = GpioMode.AF) ∧
    runC3 ordRev = Except.ok [c3ActualRow] :=
  c3_scenario_renders_substituted ordRev permFn_ordRev

/-!
### C8 — idempotence of the substitution pass

Every substitution rule is anchored and rewrites its matched literal to a
capture of shape `head ++ class-char`; no rule's output re-matches the same
or an earlier rule moving through the ordered pass, so the result of one
full pass is a fixed point of every rule.  The idempotence below is proved
for all character lists, which covers in particular the documented
peripheral-name vocabulary.
-/

/-- All capture heads (`$1` texts) the twelve `subAlts`-shaped rules can
emit. -/
def subHeads : List Chars :=
  [['H', 'R', 'T'], ['L', 'P', 'T'], ['T'], ['L', 'P', 'U'], ['U'], ['D'],
   ['F'], ['Q'], ['S'], ['S', 'W'], ['S', 'D'], ['S', 'P'], ['C'],
   ['F', 'S'], ['H', 'S']]

set_option maxHeartbeats 4000000 in
lemma subs12_fix_headed (h : Chars) (hh : h ∈ subHeads) (c : Char)
    (hc : c ∈ classChars) (r : Chars) :
    ∀ f ∈ subs12, f (h ++ c :: r) = h ++ c :: r := by
  intro f hf
  have hc' : c ∈ (['0', '1', '2', '3', '4', '5', '6', '7', '8', '9', '_'] : Chars) := hc
  fin_cases hh <;> fin_cases hf <;> first
  | rfl
  | (fin_cases hc' <;> rfl)

set_option maxHeartbeats 4000000 in
lemma all13_fix_T (d : Char) (hd : d ∈ digitChars) (c : Char)
    (hc : c ∈ classChars) (r : Chars) :
    ∀ f ∈ subsRules, f ('T' :: d :: '_' :: 'B' :: c :: r) =
      'T' :: d :: '_' :: 'B' :: c :: r := by
  intro f hf
  have hd' : d ∈ (['0', '1', '2', '3', '4', '5', '6', '7', '8', '9'] : Chars) := hd
  have hc' : c ∈ (['0', '1', '2', '3', '4', '5', '6', '7', '8', '9', '_'] : Chars) := hc
  fin_cases hd' <;> fin_cases hf <;> first
  | rfl
  | (fin_cases hc' <;> rfl)

lemma digU_memC (c : Char) (h : isDigU c = true) : c ∈ classChars := by
  simpa [isDigU] using h

lemma findSome?_some {α β : Type} (f : α → Option β) (l : List α) :
    ∀ b, l.findSome? f = some b → ∃ a ∈ l, f a = some b := by
  induction l with
  | nil =>
    intro b h
    simp at h
  | cons a l ih =>
    intro b h
    rw [List.findSome?_cons] at h
    cases hfa : f a with
    | some b0 =>
      rw [hfa] at h
      cases h
      exact ⟨a, List.mem_cons_self _ _, hfa⟩
    | none =>
      rw [hfa] at h
      obtain ⟨a', ha', h'⟩ := ih b h
      exact ⟨a', List.mem_cons_of_mem _ ha', h'⟩

lemma subAlt_shape (lit g1 s t : Chars) (h : subAlt lit g1 s = some t) :
    ∃ c r, c ∈ classChars ∧ t = g1 ++ c :: r := by
  unfold subAlt at h
  split at h
  · rename_i c r heq
    split at h
    · rename_i hdu
      cases h
      exact ⟨c, r, digU_memC c hdu, rfl⟩
    · cases h
  · cases h

lemma subAlts_shape (alts : List (Chars × Chars)) (s : Chars) :
    subAlts alts s = s ∨
      ∃ a ∈ alts, ∃ c r, c ∈ classChars ∧ subAlts alts s = a.2 ++ c :: r := by
  unfold subAlts
  cases hf : alts.findSome? (fun a => subAlt a.1 a.2 s) with
  | none => exact Or.inl rfl
  | some t =>
    right
    obtain ⟨a, ha, hsub⟩ := findSome?_some _ _ t hf
    obtain ⟨c, r, hc, ht⟩ := subAlt_shape a.1 a.2 s t hsub
    exact ⟨a, ha, c, r, hc, ht⟩

lemma sub_out_clean (alts : List (Chars × Chars))
    (halts : ∀ a ∈ alts, a.2 ∈ subHeads) (s : Chars) :
    subAlts alts s = s ∨ ∀ f ∈ subs12, f (subAlts alts s) = subAlts alts s := by
  rcases subAlts_shape alts s with h | ⟨a, ha, c, r, hc, he⟩
  · exact Or.inl h
  · right
    intro f hf
    rw [he]
    exact subs12_fix_headed a.2 (halts a ha) c hc r f hf

lemma sub1_out (s : Chars) : sub1 s = s ∨ ∀ f ∈ subs12, f (sub1 s) = sub1 s :=
  sub_out_clean _ (by decide) s

lemma sub2_out (s : Chars) : sub2 s = s ∨ ∀ f ∈ subs12, f (sub2 s) = sub2 s :=
  sub_out_clean _ (by decide) s

lemma sub3_out (s : Chars) : sub3 s = s ∨ ∀ f ∈ subs12, f (sub3 s) = sub3 s :=
  sub_out_clean _ (by decide) s

lemma sub4_out (s : Chars) : sub4 s = s ∨ ∀ f ∈ subs12, f (sub4 s) = sub4 s :=
  sub_out_clean _ (by decide) s

lemma sub5_out (s : Chars) : sub5 s = s ∨ ∀ f ∈ subs12, f (sub5 s) = sub5 s :=
  sub_out_clean _ (by decide) s

lemma sub6_out (s : Chars) : sub6 s = s ∨ ∀ f ∈ subs12, f (sub6 s) = sub6 s :=
  sub_out_clean _ (by decide) s

lemma sub7_out (s : Chars) : sub7 s = s ∨ ∀ f ∈ subs12, f (sub7 s) = sub7 s :=
  sub_out_clean _ (by decide) s

lemma sub8_out (s : Chars) : sub8 s = s ∨ ∀ f ∈ subs12, f (sub8 s) = sub8 s :=
  sub_out_clean _ (by decide) s

lemma sub9_out (s : Chars) : sub9 s = s ∨ ∀ f ∈ subs12, f (sub9 s) = sub9 s :=
  sub_out_clean _ (by decide) s

lemma sub10_out (s : Chars) : sub10 s = s ∨ ∀ f ∈ subs12, f (sub10 s) = sub10 s :=
  sub_out_clean _ (by decide) s

lemma sub11_out (s : Chars) : sub11 s = s ∨ ∀ f ∈ subs12, f (sub11 s) = sub11 s :=
  sub_out_clean _ (by decide) s

lemma sub12_out (s : Chars) : sub12 s = s ∨ ∀ f ∈ subs12, f (sub12 s) = sub12 s :=
  sub_out_clean _ (by decide) s

lemma sub13_shape (s : Chars) :
    sub13 s = s ∨ ∃ d c r, d ∈ digitChars ∧ c ∈ classChars ∧
      sub13 s = 'T' :: d :: '_' :: 'B' :: c :: r := by
  unfold sub13
  split
  · rename_i d c r
    by_cases hdc : (isDig d && isDigU c) = true
    · rw [if_pos hdc]
      rw [Bool.and_eq_true] at hdc
      right
      refine ⟨d, c, r, ?_, digU_memC c hdc.2, rfl⟩
      simpa [isDig] using hdc.1
    · rw [if_neg hdc]
      left
      rfl
  · left
    rfl

lemma stepP (g : Chars → Chars) (t : Chars) (prev : List (Chars → Chars))
    (hout : g t = t ∨ ∀ f ∈ subs12, f (g t) = g t)
    (hprev : ∀ f ∈ prev, f t = t)
    (hsub : ∀ f ∈ prev ++ [g], f ∈ subs12) :
    ∀ f ∈ prev ++ [g], f (g t) = g t := by
  intro f hf
  rcases hout with heq | hclean
  · rw [heq]
    rcases List.mem_append.mp hf with hfp | hfg
    · exact hprev f hfp
    · simp only [List.mem_singleton] at hfg
      rw [hfg, heq]
  · exact hclean f (hsub f hf)

lemma chainP (rules : List (Chars → Chars))
    (hrules : ∀ g ∈ rules, ∀ t : Chars, g t = t ∨ ∀ f ∈ subs12, f (g t) = g t)
    (hrsub : ∀ f ∈ rules, f ∈ subs12) :
    ∀ (t : Chars) (prev : List (Chars → Chars)),
      (∀ f ∈ prev, f t = t) → (∀ f ∈ prev, f ∈ subs12) →
      ∀ f ∈ prev ++ rules,
        f (rules.foldl (fun x g => g x) t) = rules.foldl (fun x g => g x) t := by
  induction rules with
  | nil =>
    intro t prev hprev _ f hf
    rw [List.append_nil] at hf
    exact hprev f hf
  | cons g rest ih =>
    intro t prev hprev hpsub f hf
    have hgsub : g ∈ subs12 := hrsub g (List.mem_cons_self _ _)
    have hsub1 : ∀ f ∈ prev ++ [g], f ∈ subs12 := by
      intro f hf
      rcases List.mem_append.mp hf with hp | hg
      · exact hpsub f hp
      · simp only [List.mem_singleton] at hg
        rw [hg]
        exact hgsub
    have hstep := stepP g t prev (hrules g (List.mem_cons_self _ _) t) hprev hsub1
    have hres := ih (fun g' hg' t' => hrules g' (List.mem_cons_of_mem _ hg') t')
      (fun f hf => hrsub f (List.mem_cons_of_mem _ hf)) (g t) (prev ++ [g])
      hstep hsub1 f (by rw [← List.append_cons]; exact hf)
    simpa using hres

lemma subsAll_clean (s : Chars) : ∀ f ∈ subsRules, f (subsAll s) = subsAll s := by
  have hrules : ∀ g ∈ subs12, ∀ t : Chars,
      g t = t ∨ ∀ f ∈ subs12, f (g t) = g t := by
    intro g hg t
    fin_cases hg
    · exact sub1_out t
    · exact sub2_out t
    · exact sub3_out t
    · exact sub4_out t
    · exact sub5_out t
    · exact sub6_out t
    · exact sub7_out t
    · exact sub8_out t
    · exact sub9_out t
    · exact sub10_out t
    · exact sub11_out t
    · exact sub12_out t
  have h12 := chainP subs12 hrules (fun f hf => hf) s []
    (fun f hf => absurd hf (List.not_mem_nil f))
    (fun f hf => absurd hf (List.not_mem_nil f))
  have h12' : ∀ f ∈ subs12,
      f (subs12.foldl (fun x g => g x) s) = subs12.foldl (fun x g => g x) s :=
    fun f hf => h12 f (by simpa using hf)
  have hs : subsAll s = sub13 (subs12.foldl (fun x g => g x) s) := by
    simp [subsAll, subsRules, List.foldl_append]
  rcases sub13_shape (subs12.foldl (fun x g => g x) s) with h | ⟨d, c, r, hd, hc, he⟩
  · intro f hf
    rw [hs, h]
    rcases List.mem_append.mp hf with h12m | h13
    · exact h12' f h12m
    · simp only [List.mem_singleton] at h13
      rw [h13, h]
  · intro f hf
    rw [hs, he]
    exact all13_fix_T d hd c hc r f hf

lemma foldl_fixed (l : List (Chars → Chars)) :
    ∀ t : Chars, (∀ f ∈ l, f t = t) → l.foldl (fun x g => g x) t = t := by
  induction l with
  | nil =>
    intro t _
    rfl
  | cons g rest ih =>
    intro t h
    simp only [List.foldl_cons, h g (List.mem_cons_self _ _)]
    exact ih t (fun f hf => h f (List.mem_cons_of_mem _ hf))

/-- C8: one pass of the fixed substitution rule list is idempotent — for
every signal name `s` (all character lists, in particular the documented
peripheral-name vocabulary), applying the pass twice equals applying it
once, because the output of a full pass is a fixed point of every rule. -/
theorem substitution_pass_idempotent (s : Chars) :
    subsAll (subsAll s) = subsAll s :=
  foldl_fixed subsRules (subsAll s) (subsAll_clean s)

end Pinmap
